import Mathlib

/-! lc2 : grouped directory listing

A shallow embedding of `src/lc2.c` (classification of directory entries into
five bounded lists, the two `qsort` comparators, the column formatter
`dump_list`, and `main` with its option loop, sort step and report), followed
by theorems about it.

Modelling conventions

* A C string is the list of its bytes before the terminating NUL, so no byte
  is `0` and every byte is below `256` (`CStr`).
* `int` values are `Int`.  Every `int` of the program that the theorems speak
  about stays between `0` and a few thousand, so no wrap-around is modelled
  for them; the `unsigned short` local of `list_directory` is reduced modulo
  `65536`.
* A C array is a function from indices to values together with an explicit
  bound check on every store.
* Functions that terminate the program return `Except.error`.
* Functions of the C library are modelled by their documented contract:
  `_strcasecmp` compares the lower-cased bytes, `qsort` leaves some
  permutation in ascending order, `_strdup` copies (the heap is unbounded).
* The directory stream is an input: each entry comes with the outcome of
  `_stat` on its path.
* Standard output is the sequence of the calls that write to it (`OUT`), each
  with its arguments; `OUT.bytes` gives the bytes of a call.  The messages of
  `debug_print` are kept apart from the report text; those of
  `add_file_to_list` and `list_directory` are left out.
* The returns of `_getopt` are an input, like the directory stream.
-/

namespace Lc2

/-! ## Data model -/

/-- A NUL-terminated C string, represented by its bytes before the NUL. -/
structure CStr where
  bytes : List Nat
  valid : ∀ b ∈ bytes, 0 < b ∧ b < 256

instance : DecidableEq CStr := fun a b =>
  decidable_of_iff (a.bytes = b.bytes)
    ⟨fun h => by cases a; cases b; cases h; rfl, fun h => by rw [h]⟩

/-- Line 31: `#define MAX_FILES 2048`. -/
def MAX_FILES : Int := 2048

/-- Lines 33-39: `struct filedata_tag`. -/
structure FILEDATA where
  filename : CStr
  file_size : Int
  file_nlinks : Int
  file_mtime : Int
  file_mode : Nat
deriving DecidableEq

/-- Lines 41-45: `struct fileinfo_tag`.  `files` is the array
`FILEDATA files[MAX_FILES]`; only indices below `MAX_FILES` exist in C. -/
structure FILEINFO where
  count : Int
  maxlen : Int
  files : Nat → FILEDATA

/-- The fields of `struct _stat` that the program reads.  The structure is
declared in a platform header; its fields have the types of the `FILEDATA`
fields they are copied to (`st_mode` is an `unsigned short`). -/
structure STAT where
  st_mode : Nat
  st_size : Int
  st_nlink : Int
  st_mtime : Int
deriving DecidableEq

/-- The file-scope variables of lines 47 and 51-55. -/
structure GLOBALS where
  filestats : STAT
  dirs_list : FILEINFO
  files_list : FILEINFO
  char_list : FILEINFO
  fifo_list : FILEINFO
  misc_list : FILEINFO

/-- How the program can terminate before `main` reaches its end. -/
inductive Fatal where
  | die (status : Int)
  | quit (status : Int)
  | fault
deriving DecidableEq

/-- Modelled from the spec: `die(status, format, ...)` is declared `extern` at
line 59 and defined outside the source file; it prints the message on standard
error and terminates the program with exit status `status`. -/
def die {α : Type} (status : Int) : Except Fatal α := Except.error (Fatal.die status)

/-- Modelled from the spec: `quit(status, format, ...)` is declared `extern` at
line 59 and defined outside the source file; it prints the message on standard
error and terminates the program with exit status `status`. -/
def quit {α : Type} (status : Int) : Except Fatal α := Except.error (Fatal.quit status)

/-- Modelled from the spec: `system_error(format, ...)` is declared `extern` at
line 59 and defined outside the source file; it logs a non-fatal warning and
returns to its caller, leaving the program state as it was. -/
def system_error (g : GLOBALS) : GLOBALS := g

/-! ## C library -/

/-- The length of a C string (`strlen`). -/
def strlen (s : CStr) : Nat := s.bytes.length

/-- The copy made by `_strdup`, or `none` for a NULL result.  The heap of the
model is unbounded, so the copy is always made. -/
def _strdup (s : CStr) : Option CStr := some s

/-- The C-locale `tolower` on a byte: `A`..`Z` map to `a`..`z`. -/
def tolower (c : Nat) : Nat := if 65 ≤ c ∧ c ≤ 90 then c + 32 else c

/-- Byte-wise comparison loop of `_strcasecmp` on the remaining bytes of the
two strings; the end of a list is the terminating NUL (byte `0`).  The result
is the difference of the first pair of lower-cased bytes that differ. -/
def strcasecmp_bytes : List Nat → List Nat → Int
  | [], [] => 0
  | [], b :: _ => 0 - (tolower b : Int)
  | a :: _, [] => (tolower a : Int) - 0
  | a :: as, b :: bs =>
    if tolower a ≠ tolower b then (tolower a : Int) - (tolower b : Int)
    else strcasecmp_bytes as bs

/-- The function `_strcasecmp`: compares two strings ignoring the case of
ASCII letters. -/
def _strcasecmp (s1 s2 : CStr) : Int := strcasecmp_bytes s1.bytes s2.bytes

/-- File-type mask and file-type values of `<sys/stat.h>`. -/
def _S_IFMT : Nat := 0xF000
/-- The file type of a directory. -/
def _S_IFDIR : Nat := 0x4000
/-- The file type of a character device. -/
def _S_IFCHR : Nat := 0x2000
/-- The file type of a FIFO. -/
def _S_IFIFO : Nat := 0x1000
/-- The file type of a regular file. -/
def _S_IFREG : Nat := 0x8000

/-! ## The program -/

/-- Lines 86-92. -/
def compare_name (f1 f2 : FILEDATA) : Int :=
  _strcasecmp f1.filename f2.filename

/-- Lines 96-112. -/
def compare_time (f1 f2 : FILEDATA) : Int :=
  if f1.file_mtime < f2.file_mtime then -1
  else if f1.file_mtime = f2.file_mtime then 0
  else 1

/-- Lines 194-217.  `filestats` is the file-scope variable read at lines
211-214.  The store `list->files[list->count-1]` is checked against the lower
bound of the array (the upper bound is the test of line 199). -/
def add_file_to_list (filestats : STAT) (filename : CStr) (list : FILEINFO) :
    Except Fatal FILEINFO :=
  let count := list.count + 1
  if count > MAX_FILES then die 1
  else
    match _strdup filename with
    | none => quit 1
    | some copy =>
      if count - 1 < 0 then Except.error Fatal.fault
      else
        let len : Int := strlen filename
        let maxlen := if len > list.maxlen then len else list.maxlen
        Except.ok
          { count := count
            maxlen := maxlen
            files := Function.update list.files (count - 1).toNat
              { filename := copy
                file_mtime := filestats.st_mtime
                file_size := filestats.st_size
                file_nlinks := filestats.st_nlink
                file_mode := filestats.st_mode } }

/-- One directory entry as `list_directory` sees it: the name returned by
`_readdir` and the outcome of `_stat` on it (`none` when `_stat` fails). -/
structure DIRENT where
  d_name : CStr
  stat : Option STAT

/-- Lines 253-279: the body of the loop of `list_directory` for one entry. -/
def list_directory_entry (entry : DIRENT) (g : GLOBALS) : Except Fatal GLOBALS :=
  let name := entry.d_name
  match entry.stat with
  | none => Except.ok (system_error g)
  | some st =>
    let g := { g with filestats := st }
    let filemode := (g.filestats.st_mode &&& _S_IFMT) % 65536
    if filemode = _S_IFDIR then
      (add_file_to_list g.filestats name g.dirs_list).map fun l => { g with dirs_list := l }
    else if filemode = _S_IFCHR then
      (add_file_to_list g.filestats name g.char_list).map fun l => { g with char_list := l }
    else if filemode = _S_IFIFO then
      (add_file_to_list g.filestats name g.fifo_list).map fun l => { g with fifo_list := l }
    else if filemode = _S_IFREG then
      (add_file_to_list g.filestats name g.files_list).map fun l => { g with files_list := l }
    else
      (add_file_to_list g.filestats name g.misc_list).map fun l => { g with misc_list := l }

/-- Lines 251-280: the loop over the entries that `_readdir` returns. -/
def list_directory_loop : List DIRENT → GLOBALS → Except Fatal GLOBALS
  | [], g => Except.ok g
  | entry :: rest, g =>
    match list_directory_entry entry g with
    | Except.error e => Except.error e
    | Except.ok g1 => list_directory_loop rest g1

/-- Lines 237-285.  `dir` is the outcome of `_opendir`: `none` when it fails,
otherwise the entries that the directory stream yields. -/
def list_directory (dir : Option (List DIRENT)) (g : GLOBALS) : Except Fatal GLOBALS :=
  match dir with
  | none => quit 1
  | some entries => list_directory_loop entries g

/-- Lines 394-407 for one list: `count` and `maxlen` are set to `0`, the array
keeps whatever it holds. -/
def init_list (l : FILEINFO) : FILEINFO := { l with count := 0, maxlen := 0 }

/-- Lines 394-407. -/
def init_lists (g : GLOBALS) : GLOBALS :=
  { g with
    dirs_list := init_list g.dirs_list
    files_list := init_list g.files_list
    char_list := init_list g.char_list
    fifo_list := init_list g.fifo_list
    misc_list := init_list g.misc_list }

/-! ## Notions used to state the properties -/

/-- The five classes of the specification. -/
inductive FileClass where
  | Directory
  | CharacterDevice
  | FIFO
  | RegularFile
  | Other
deriving DecidableEq

/-- The classification as the specification words it: the class is chosen by
the file-type bits `mode & S_IFMT`, every unlisted value giving `Other`. -/
def classify (mode : Nat) : FileClass :=
  if mode &&& _S_IFMT = _S_IFDIR then FileClass.Directory
  else if mode &&& _S_IFMT = _S_IFCHR then FileClass.CharacterDevice
  else if mode &&& _S_IFMT = _S_IFIFO then FileClass.FIFO
  else if mode &&& _S_IFMT = _S_IFREG then FileClass.RegularFile
  else FileClass.Other

/-- The list that holds a class: `dirs_list`, `char_list`, `fifo_list`,
`files_list`, `misc_list`. -/
def GLOBALS.list (g : GLOBALS) : FileClass → FILEINFO
  | FileClass.Directory => g.dirs_list
  | FileClass.CharacterDevice => g.char_list
  | FileClass.FIFO => g.fifo_list
  | FileClass.RegularFile => g.files_list
  | FileClass.Other => g.misc_list

/-- The live part of a list: `files[0]`, ..., `files[count-1]`. -/
def FILEINFO.entries (l : FILEINFO) : List FILEDATA :=
  (List.range l.count.toNat).map l.files

/-- The entry that carries a name and the fields of a stat result. -/
def FILEDATA.ofStat (name : CStr) (st : STAT) : FILEDATA :=
  { filename := name
    file_mtime := st.st_mtime
    file_size := st.st_size
    file_nlinks := st.st_nlink
    file_mode := st.st_mode }

/-- The entry that a directory entry of class `k` with a successful stat
contributes to the list of `k`; `none` for other classes and for a failed stat. -/
def DIRENT.inClass (k : FileClass) (e : DIRENT) : Option FILEDATA :=
  match e.stat with
  | none => none
  | some st => if classify st.st_mode = k then some (FILEDATA.ofStat e.d_name st) else none

/-- A sequence of calls of `add_file_to_list` on one list, each made with the
stat result and the name of one item, stopping at the first fatal error. -/
def insert_all : List (STAT × CStr) → FILEINFO → Except Fatal FILEINFO
  | [], l => Except.ok l
  | (st, name) :: rest, l =>
    match add_file_to_list st name l with
    | Except.error e => Except.error e
    | Except.ok l1 => insert_all rest l1

/-- The lower-cased bytes of a name: the key of the name order. -/
def casefold (s : CStr) : List Nat := s.bytes.map tolower

/-- A sequence is in ascending order according to a comparison function when
no element compares greater than its successor. -/
def Ascending (compar : FILEDATA → FILEDATA → Int) : List FILEDATA → Prop
  | a :: b :: rest => compar a b ≤ 0 ∧ Ascending compar (b :: rest)
  | _ => True

/-- Whether a sequence is in ascending order can be computed. -/
def Ascending.decide (compar : FILEDATA → FILEDATA → Int) :
    (xs : List FILEDATA) → Decidable (Ascending compar xs)
  | [] => isTrue trivial
  | [_] => isTrue trivial
  | a :: b :: rest =>
    match Int.decLe (compar a b) 0, Ascending.decide compar (b :: rest) with
    | isTrue h1, isTrue h2 => isTrue ⟨h1, h2⟩
    | isFalse h1, _ => isFalse (fun h => h1 h.1)
    | _, isFalse h2 => isFalse (fun h => h2 h.2)

instance (compar : FILEDATA → FILEDATA → Int) (xs : List FILEDATA) :
    Decidable (Ascending compar xs) :=
  Ascending.decide compar xs

/-- The contract of the C library function `qsort`: the elements of the array
are rearranged into ascending order according to the comparison function; the
order of elements that compare equal is unspecified. -/
def qsort_result (compar : FILEDATA → FILEDATA → Int) (before after : List FILEDATA) : Prop :=
  after.Perm before ∧ Ascending compar after

instance (compar : FILEDATA → FILEDATA → Int) (before after : List FILEDATA) :
    Decidable (qsort_result compar before after) :=
  inferInstanceAs (Decidable (after.Perm before ∧ Ascending compar after))

/-- The array after `qsort` has written the sorted elements over its first
`sorted.length` places; the places after them are not touched. -/
def store_sorted (files : Nat → FILEDATA) (sorted : List FILEDATA) : Nat → FILEDATA :=
  fun i => sorted.getD i (files i)

/-- Lines 423 and 430: the comparison function that `main` passes to `qsort`,
`compare_time` when `opt_t` is set and `compare_name` otherwise. -/
def comparator (opt_t : Bool) : FILEDATA → FILEDATA → Int :=
  if opt_t then compare_time else compare_name

/-- Lines 423-436 for one list: `qsort(list.files, (unsigned) list.count,
sizeof(FILEDATA), compar)` with `compar` chosen by `opt_t`.  The call is
defined when the `count` elements lie inside the array; it relates the list
before the call to every list that the contract of `qsort` allows after it. -/
def sort_list (opt_t : Bool) (l l' : FILEINFO) : Prop :=
  0 ≤ l.count ∧ l.count ≤ MAX_FILES ∧
    ∃ sorted : List FILEDATA,
      qsort_result (comparator opt_t) l.entries sorted ∧
      l' = { l with files := store_sorted l.files sorted }

/-! ## Concrete data for the worked examples -/

/-- The name `a`. -/
def name_a : CStr := ⟨[97], by decide⟩

/-- The name `A`. -/
def name_upper_a : CStr := ⟨[65], by decide⟩

/-- The name `b.txt`. -/
def name_b_txt : CStr := ⟨[98, 46, 116, 120, 116], by decide⟩

/-- The name `A.txt`. -/
def name_upper_a_txt : CStr := ⟨[65, 46, 116, 120, 116], by decide⟩

/-- The stat result of a regular file with mode `0100644`. -/
def stat_regular : STAT := { st_mode := 0x81A4, st_size := 12, st_nlink := 1, st_mtime := 1000 }

/-- The stat result of a directory with mode `040755`. -/
def stat_directory : STAT := { st_mode := 0x41ED, st_size := 0, st_nlink := 2, st_mtime := 2000 }

/-- An array whose places all hold an entry with the empty name. -/
def blank_files : Nat → FILEDATA := fun _ =>
  { filename := ⟨[], by decide⟩, file_size := 0, file_nlinks := 0, file_mtime := 0, file_mode := 0 }

/-- A list with `count = 0` and `maxlen = 0`. -/
def empty_list : FILEINFO := { count := 0, maxlen := 0, files := blank_files }

/-- The file-scope variables with the five lists empty. -/
def start_globals : GLOBALS :=
  { filestats := { st_mode := 0, st_size := 0, st_nlink := 0, st_mtime := 0 }
    dirs_list := empty_list
    files_list := empty_list
    char_list := empty_list
    fifo_list := empty_list
    misc_list := empty_list }

/-- A directory stream of three entries: the regular file `a`, the entry
`b.txt` whose stat fails, and the directory `A.txt`. -/
def sample_entries : List DIRENT :=
  [ { d_name := name_a, stat := some stat_regular },
    { d_name := name_b_txt, stat := none },
    { d_name := name_upper_a_txt, stat := some stat_directory } ]

/-- The entry of the regular file `b.txt`. -/
def entry_b_txt : FILEDATA := FILEDATA.ofStat name_b_txt stat_regular

/-- The entry of the regular file `A.txt`. -/
def entry_upper_a_txt : FILEDATA := FILEDATA.ofStat name_upper_a_txt stat_regular

/-- The entry of the regular file `a`. -/
def entry_a : FILEDATA := FILEDATA.ofStat name_a stat_regular

/-- The entry of the regular file `A`, with the modification time of `a`. -/
def entry_upper_a : FILEDATA := FILEDATA.ofStat name_upper_a stat_regular

/-- The list of the files `b.txt`, `A.txt` in discovery order. -/
def two_files : FILEINFO :=
  { count := 2, maxlen := 5, files := store_sorted blank_files [entry_b_txt, entry_upper_a_txt] }

/-- The list `two_files` after `qsort` has stored `A.txt`, `b.txt`. -/
def two_files_sorted : FILEINFO :=
  { two_files with files := store_sorted two_files.files [entry_upper_a_txt, entry_b_txt] }

/-- The list of the files `a`, `A`: they tie under both comparators. -/
def tied_files : FILEINFO :=
  { count := 2, maxlen := 1, files := store_sorted blank_files [entry_a, entry_upper_a] }

/-- The list `tied_files` after `qsort` has stored `A`, `a`. -/
def tied_files_swapped : FILEINFO :=
  { tied_files with files := store_sorted tied_files.files [entry_upper_a, entry_a] }

/-- The list `tied_files_swapped` after `qsort` has stored `a`, `A`. -/
def tied_files_swapped_back : FILEINFO :=
  { tied_files_swapped with
    files := store_sorted tied_files_swapped.files [entry_a, entry_upper_a] }

/-! ## Output: the C library -/

/-- The bytes of an ASCII literal. -/
def ascii (s : String) : List Nat := s.toList.map Char.toNat

/-- The conversion `%d` of `printf`: the decimal digits, after a minus sign
for a negative number. -/
def format_d (n : Int) : List Nat :=
  if n < 0 then 45 :: (Nat.toDigits 10 (-n).toNat).map Char.toNat
  else (Nat.toDigits 10 n.toNat).map Char.toNat

/-- The conversion `%-*.*s` of `printf` with the arguments `width`, `prec` and
`s`: at most `prec` bytes of `s` (all of `s` for a negative `prec`), padded on
the right with spaces up to the field width (a negative `width` is its absolute
value together with the flag `-`, which is set already). -/
def format_s_left (width prec : Int) (s : CStr) : List Nat :=
  let shown := if prec < 0 then s.bytes else s.bytes.take prec.toNat
  shown ++ List.replicate (width.natAbs - shown.length) 32

/-- The function `atoi` on the bytes after the sign: the value of the leading
decimal digits, accumulated on `acc`. -/
def atoi_digits : List Nat → Int → Int
  | [], acc => acc
  | c :: rest, acc => if 48 ≤ c ∧ c ≤ 57 then atoi_digits rest (acc * 10 + (c - 48 : Nat)) else acc

/-- The function `atoi` on the bytes after the leading white space. -/
def atoi_signed : List Nat → Int
  | 45 :: rest => - atoi_digits rest 0
  | 43 :: rest => atoi_digits rest 0
  | bytes => atoi_digits bytes 0

/-- The function `atoi`: leading white space is skipped, then an optional sign
and the leading decimal digits are read; the value is `0` without digits. -/
def atoi (s : CStr) : Int :=
  atoi_signed (s.bytes.dropWhile (fun c => c = 32 ∨ (9 ≤ c ∧ c ≤ 13)))

/-! ## Output: the program -/

/-- One call that writes to standard output, with its arguments. -/
inductive OUT where
  | newline
  | title (title : CStr) (count : Int)
  | field (width : Int) (prec : Int) (s : CStr)
  | text (bytes : List Nat)
  | debug (bytes : List Nat)
deriving DecidableEq

/-- The bytes that a call writes: `newline` is `printf` of a line feed,
`title` is `printf` of the format `%s [%d]` ended by a line feed, `field` is
`printf` of the format `%-*.*s`, `text` is any other `printf`, and `debug` is a
message of `debug_print` that was written because `opt_d` was set. -/
def OUT.bytes : OUT → List Nat
  | OUT.newline => [10]
  | OUT.title name n => name.bytes ++ ascii " [" ++ format_d n ++ ascii "]" ++ [10]
  | OUT.field w p s => format_s_left w p s
  | OUT.text b => b
  | OUT.debug b => b

/-- Lines 133-145: `debug_print` writes its message to standard output when
`opt_d` is set and nothing otherwise. -/
def debug_print (opt_d : Bool) (message : List Nat) : List OUT :=
  if opt_d then [OUT.debug message] else []

/-- Lines 321-328: the loop of `dump_list` over the entries that are still to
be printed, with the current value of `line_width`. -/
def dump_loop (max_line_width width : Int) : List FILEDATA → Int → List OUT
  | [], _ => []
  | f :: rest, line_width =>
    if line_width + width > max_line_width then
      OUT.newline :: OUT.field width width f.filename
        :: dump_loop max_line_width width rest (0 + width)
    else
      OUT.field width width f.filename
        :: dump_loop max_line_width width rest (line_width + width)

/-- Lines 306-332.  `opt_d` and `max_line_width` are the file-scope variables
of lines 48 and 50.  The loop reads `files[0]`, ..., `files[count-1]`. -/
def dump_list (opt_d : Bool) (max_line_width : Int) (list_ptr : FILEINFO) (title : CStr) :
    List OUT :=
  debug_print opt_d
      (ascii "dump_list(" ++ title.bytes ++ ascii ") count = " ++ format_d list_ptr.count ++ [10])
    ++
    if list_ptr.count ≤ 0 then []
    else
      [OUT.newline]
        ++ debug_print opt_d (ascii "dump_list() : call standout_print()" ++ [10])
        ++ [OUT.title title list_ptr.count]
        ++ dump_loop max_line_width (list_ptr.maxlen + 1) list_ptr.entries 0
        ++ [OUT.newline]

/-- Lines 165-173: the text that `usage` writes to standard error. -/
def usage (pgm : CStr) : List Nat :=
  ascii "Usage : " ++ pgm.bytes ++ ascii " [-dh] [-w max_line_width]" ++ [10, 10]
    ++ ascii "d - invoke debugging mode" ++ [10]
    ++ ascii "w max_line_width - override maximum line width" ++ [10]
    ++ ascii "h - produce this summary" ++ [10]

/-- One return of `_getopt(argc, argv, ":dhtw:")` before it returns `-1`: one
of the four options (`w` with its `optarg`), `?` for an unknown option or `:`
for a missing value, both with `optopt`.  With this option string `_getopt`
returns nothing else, so the `default` case of line 381 is not reached. -/
inductive GETOPT where
  | h
  | d
  | t
  | w (optarg : CStr)
  | unknown (optopt : Nat)
  | missing (optopt : Nat)
deriving DecidableEq

/-- The variables that the option loop of `main` writes: the file-scope
variables of lines 48 and 50, the local `errflag`, and the calls that wrote to
standard output so far. -/
structure OPTSTATE where
  opt_d : Bool
  opt_h : Bool
  opt_t : Bool
  max_line_width : Int
  errflag : Int
  out : List OUT

/-- The values before the option loop: lines 48, 50 and 358. -/
def OPTSTATE.initial : OPTSTATE :=
  { opt_d := false, opt_h := false, opt_t := false, max_line_width := 118, errflag := 0,
    out := [] }

/-- Lines 360-383: the `switch` of the option loop for one return of `_getopt`. -/
def main_option (o : OPTSTATE) : GETOPT → OPTSTATE
  | GETOPT.h => { o with opt_h := true }
  | GETOPT.d => { o with opt_d := true }
  | GETOPT.t => { o with opt_t := true }
  | GETOPT.w optarg => { o with max_line_width := atoi optarg }
  | GETOPT.unknown optopt =>
    { o with
      out := o.out ++ [OUT.text (ascii "Unknown option " ++ [39, optopt % 256, 39, 10])]
      errflag := o.errflag + 1 }
  | GETOPT.missing optopt =>
    { o with
      out := o.out
        ++ [OUT.text (ascii "Missing value for option " ++ [39, optopt % 256, 39, 10])]
      errflag := o.errflag + 1 }

/-- Lines 358-384: the option loop over the returns of `_getopt`. -/
def main_options (opts : List GETOPT) : OPTSTATE :=
  opts.foldl main_option OPTSTATE.initial

/-- How a run of the program ends: `exit(status)` in `main`, or one of the
fatal ends. -/
inductive Ending where
  | exit (status : Int)
  | fatal (f : Fatal)
deriving DecidableEq

/-- What a run of `main` leaves: the calls that wrote to standard output (those
of `main` and `dump_list`), the text that `usage` wrote to standard error, and
how the run ended. -/
structure RUN where
  stdout : List OUT
  stderr : List Nat
  ending : Ending
deriving DecidableEq

/-- The title `Files`. -/
def title_files : CStr := ⟨ascii "Files", by decide⟩

/-- The title `Directories`. -/
def title_directories : CStr := ⟨ascii "Directories", by decide⟩

/-- The title `Character Devices`. -/
def title_character_devices : CStr := ⟨ascii "Character Devices", by decide⟩

/-- The title `Misc`. -/
def title_misc : CStr := ⟨ascii "Misc", by decide⟩

/-- The title `FIFO`. -/
def title_fifo : CStr := ⟨ascii "FIFO", by decide⟩

/-- Lines 423-436: the five calls of `qsort`, all with the comparison function
chosen by `opt_t`. -/
def sort_lists (opt_t : Bool) (g g1 : GLOBALS) : Prop :=
  sort_list opt_t g.dirs_list g1.dirs_list ∧
  sort_list opt_t g.files_list g1.files_list ∧
  sort_list opt_t g.char_list g1.char_list ∧
  sort_list opt_t g.fifo_list g1.fifo_list ∧
  sort_list opt_t g.misc_list g1.misc_list ∧
  g1.filestats = g.filestats

/-- Lines 437-441: the five calls of `dump_list`. -/
def dump_lists (opt_d : Bool) (max_line_width : Int) (g : GLOBALS) : List OUT :=
  dump_list opt_d max_line_width g.files_list title_files
    ++ dump_list opt_d max_line_width g.dirs_list title_directories
    ++ dump_list opt_d max_line_width g.char_list title_character_devices
    ++ dump_list opt_d max_line_width g.misc_list title_misc
    ++ dump_list opt_d max_line_width g.fifo_list title_fifo

/-- Lines 353-444.  `pgm` is `argv[0]`, `opts` the returns of `_getopt`, `dir`
the outcome of `_opendir` on the directory named on the command line (`.`
without a name) and `g0` the file-scope variables at the start.  The relation
holds for every run that the contract of `qsort` allows. -/
def main_run (pgm : CStr) (opts : List GETOPT) (dir : Option (List DIRENT)) (g0 : GLOBALS)
    (r : RUN) : Prop :=
  let o := main_options opts
  if o.errflag ≠ 0 then
    r = { stdout := o.out, stderr := usage pgm, ending := Ending.fatal (Fatal.die 1) }
  else if o.opt_h then
    r = { stdout := o.out, stderr := usage pgm, ending := Ending.exit 0 }
  else
    match list_directory dir (init_lists g0) with
    | Except.error e => r = { stdout := o.out, stderr := [], ending := Ending.fatal e }
    | Except.ok g1 =>
      ∃ g2, sort_lists o.opt_t g1 g2 ∧
        r = { stdout := o.out ++ dump_lists o.opt_d o.max_line_width g2
              stderr := []
              ending := Ending.exit 0 }

/-! ## Notions used to state the properties of the output -/

/-- Whether a call is a message of `debug_print`. -/
def OUT.isDebug : OUT → Bool
  | OUT.debug _ => true
  | _ => false

/-- Whether a call prints the field of an entry. -/
def OUT.isField : OUT → Bool
  | OUT.field _ _ _ => true
  | _ => false

/-- The calls that write the report: all calls but the messages of
`debug_print`. -/
def report_calls (out : List OUT) : List OUT := out.filter (fun c => !c.isDebug)

/-- The text of the report: the bytes of the calls that write the report. -/
def report (out : List OUT) : List Nat := (report_calls out).flatMap OUT.bytes

/-- The calls that follow the first title line. -/
def after_title : List OUT → List OUT
  | [] => []
  | OUT.title _ _ :: rest => rest
  | _ :: rest => after_title rest

/-- The lines that a sequence of calls writes: a line ends at each line break
(`OUT.newline`); calls after the last line break form a last line. -/
def lines_of : List OUT → List (List OUT)
  | [] => []
  | OUT.newline :: rest => [] :: lines_of rest
  | c :: rest =>
    match lines_of rest with
    | [] => [[c]]
    | line :: lines => (c :: line) :: lines

/-- The lines of entries of a block: the lines that the report calls after the
title line write. -/
def entry_lines (out : List OUT) : List (List OUT) := lines_of (after_title (report_calls out))

/-- A sequence of calls cut into consecutive pieces of `k`: piece `q` holds the
calls at the positions `q * k`, ..., `q * k + k - 1` that exist, and there are
`ceil (length / k)` pieces. -/
def chunks (k : Nat) (xs : List OUT) : List (List OUT) :=
  (List.range ((xs.length + k - 1) / k)).map (fun q => (xs.drop (q * k)).take k)

/-- The number of bytes on a line. -/
def line_length (line : List OUT) : Nat := (line.flatMap OUT.bytes).length

/-- The name `abcdefghijkl`, of length 12. -/
def name_twelve : CStr := ⟨ascii "abcdefghijkl", by decide⟩

/-- The name `mnopqrstuvwx`, of length 12. -/
def name_twelve_more : CStr := ⟨ascii "mnopqrstuvwx", by decide⟩

/-- The program name `lc2`. -/
def name_lc2 : CStr := ⟨ascii "lc2", by decide⟩

/-- The list of the single file `abcdefghijkl`, built by one insertion. -/
def one_wide_file : FILEINFO :=
  { count := 1, maxlen := 12
    files := Function.update blank_files 0 (FILEDATA.ofStat name_twelve stat_regular) }

/-- The list of the files `abcdefghijkl`, `mnopqrstuvwx`, built by two
insertions. -/
def two_wide_files : FILEINFO :=
  { count := 2, maxlen := 12
    files := Function.update
      (Function.update blank_files 0 (FILEDATA.ofStat name_twelve stat_regular)) 1
      (FILEDATA.ofStat name_twelve_more stat_regular) }

/-- The list `two_wide_files` after `qsort` has stored its two entries, which
are in ascending order of name and of time already. -/
def two_wide_files_sorted : FILEINFO :=
  { two_wide_files with
    files := store_sorted two_wide_files.files
      [FILEDATA.ofStat name_twelve stat_regular, FILEDATA.ofStat name_twelve_more stat_regular] }

/-- Whether a return of `_getopt` reports an option error (`?` or `:`). -/
def GETOPT.isError : GETOPT → Bool
  | GETOPT.unknown _ => true
  | GETOPT.missing _ => true
  | _ => false

/-- A result of `qsort` on a list that is in ascending order already: the
entries stay where they are. -/
def keep_order (l : FILEINFO) : FILEINFO :=
  { l with files := store_sorted l.files l.entries }

/-- The file-scope variables after `list_directory` has read `sample_entries`
into five empty lists. -/
def sample_listed : GLOBALS :=
  match list_directory (some sample_entries) (init_lists start_globals) with
  | Except.ok g => g
  | Except.error _ => start_globals

/-- The variables `sample_listed` after the five sorts; no list has two
entries, so every entry stays where it is. -/
def sample_sorted : GLOBALS :=
  { sample_listed with
    dirs_list := keep_order sample_listed.dirs_list
    files_list := keep_order sample_listed.files_list
    char_list := keep_order sample_listed.char_list
    fifo_list := keep_order sample_listed.fifo_list
    misc_list := keep_order sample_listed.misc_list }

/-- The run of `lc2` without options on the directory `sample_entries`. -/
def sample_run : RUN :=
  { stdout := dump_lists false 118 sample_sorted, stderr := [], ending := Ending.exit 0 }

/-- The run of `lc2 -h -x`: the message for the unknown option `x`, the usage
text, and the end through `die` with status 1. -/
def help_error_run : RUN :=
  { stdout := [OUT.text (ascii "Unknown option " ++ [39, 120, 39, 10])]
    stderr := usage name_lc2
    ending := Ending.fatal (Fatal.die 1) }

/-- The run of `lc2 -h`: the usage text and `exit(0)`. -/
def help_run : RUN :=
  { stdout := [], stderr := usage name_lc2, ending := Ending.exit 0 }

/-! ## Insertion -/

theorem add_file_to_list_ok (st : STAT) (name : CStr) (l : FILEINFO)
    (h0 : 0 ≤ l.count) (h1 : l.count < MAX_FILES) :
    add_file_to_list st name l = Except.ok
      { count := l.count + 1
        maxlen := max l.maxlen (strlen name)
        files := Function.update l.files l.count.toNat (FILEDATA.ofStat name st) } := by
  have hm : ¬ (l.count + 1 > MAX_FILES) := by simp only [MAX_FILES] at *; omega
  have hz : ¬ (l.count < 0) := by omega
  have hmax : (if (strlen name : Int) > l.maxlen then (strlen name : Int) else l.maxlen)
      = max l.maxlen (strlen name) := by
    rw [max_def]; split_ifs <;> omega
  simp only [add_file_to_list, _strdup, if_neg hm, if_neg hz, hmax, add_sub_cancel_right,
    FILEDATA.ofStat]

theorem add_file_to_list_full (st : STAT) (name : CStr) (l : FILEINFO)
    (h1 : MAX_FILES ≤ l.count) :
    add_file_to_list st name l = Except.error (Fatal.die 1) := by
  have hm : l.count + 1 > MAX_FILES := by omega
  simp only [add_file_to_list, if_pos hm, die]

theorem entries_after_store (l : FILEINFO) (e : FILEDATA) (m : Int) (h0 : 0 ≤ l.count) :
    FILEINFO.entries
      { count := l.count + 1, maxlen := m, files := Function.update l.files l.count.toNat e }
      = l.entries ++ [e] := by
  have hn : (l.count + 1).toNat = l.count.toNat + 1 := by omega
  simp only [FILEINFO.entries, hn, List.range_succ, List.map_append, List.map_cons,
    List.map_nil, Function.update_same]
  congr 1
  apply List.map_congr_left
  intro i hi
  have : i ≠ l.count.toNat := by
    have := List.mem_range.mp hi
    omega
  exact Function.update_noteq this e l.files

theorem mode_mask_short (m : Nat) : (m &&& _S_IFMT) % 65536 = m &&& _S_IFMT := by
  apply Nat.mod_eq_of_lt
  have h : m &&& _S_IFMT ≤ _S_IFMT := Nat.and_le_right
  simp only [_S_IFMT] at *
  omega

theorem list_directory_entry_stat (name : CStr) (st : STAT) (g : GLOBALS)
    (h0 : 0 ≤ (g.list (classify st.st_mode)).count)
    (h1 : (g.list (classify st.st_mode)).count < MAX_FILES) :
    ∃ g1, list_directory_entry { d_name := name, stat := some st } g = Except.ok g1 ∧
      add_file_to_list st name (g.list (classify st.st_mode))
        = Except.ok (g1.list (classify st.st_mode)) ∧
      ∀ k, k ≠ classify st.st_mode → g1.list k = g.list k := by
  have hadd := add_file_to_list_ok st name _ h0 h1
  simp only [list_directory_entry, mode_mask_short]
  unfold classify at h0 h1 hadd ⊢
  split_ifs at h0 h1 hadd ⊢ <;>
    simp only [GLOBALS.list] at h0 h1 hadd <;>
    rw [hadd] <;>
    refine ⟨_, rfl, hadd, ?_⟩ <;>
    intro k hk <;>
    cases k <;> first | rfl | exact absurd rfl hk

theorem list_directory_entry_nostat (name : CStr) (g : GLOBALS) :
    list_directory_entry { d_name := name, stat := none } g = Except.ok g := rfl

theorem insert_all_spec (items : List (STAT × CStr)) :
    ∀ l0 : FILEINFO, 0 ≤ l0.count → 0 ≤ l0.maxlen → l0.count + items.length ≤ MAX_FILES →
      ∃ l, insert_all items l0 = Except.ok l ∧
        l.count = l0.count + items.length ∧
        l.entries = l0.entries ++ items.map (fun p => FILEDATA.ofStat p.2 p.1) ∧
        l.maxlen = max l0.maxlen ((items.map (fun p => strlen p.2)).foldr max 0 : Nat) ∧
        ∀ i, l.count.toNat ≤ i → l.files i = l0.files i := by
  induction items with
  | nil =>
    intro l0 _ hm _
    refine ⟨l0, rfl, by simp, by simp, ?_, fun _ _ => rfl⟩
    simp only [List.map_nil, List.foldr_nil, Nat.cast_zero]
    exact (max_eq_left hm).symm
  | cons p rest ih =>
    intro l0 h0 hm hcap
    obtain ⟨st, name⟩ := p
    simp only [List.length_cons, Nat.cast_add, Nat.cast_one] at hcap
    have h1 : l0.count < MAX_FILES := by omega
    have hstep := add_file_to_list_ok st name l0 h0 h1
    obtain ⟨l, hl, hcount, hentries, hmaxlen, hfiles⟩ :=
      ih { count := l0.count + 1
           maxlen := max l0.maxlen (strlen name)
           files := Function.update l0.files l0.count.toNat (FILEDATA.ofStat name st) }
        (by show 0 ≤ l0.count + 1; omega) (le_max_of_le_left hm)
        (by show l0.count + 1 + _ ≤ _; omega)
    refine ⟨l, ?_, ?_, ?_, ?_, ?_⟩
    · simp only [insert_all, hstep, hl]
    · rw [hcount]; simp only [List.length_cons, Nat.cast_add, Nat.cast_one]; omega
    · rw [hentries, entries_after_store l0 _ _ h0]; simp
    · rw [hmaxlen]
      simp only [List.map_cons, List.foldr_cons, Nat.cast_max, max_assoc]
    · intro i hi
      rw [hfiles i hi]
      have hne : i ≠ l0.count.toNat := by
        rw [hcount] at hi
        dsimp only at hi
        omega
      exact Function.update_noteq hne _ _

theorem insert_all_overflow (items : List (STAT × CStr)) :
    ∀ l0 : FILEINFO, 0 ≤ l0.count → l0.count ≤ MAX_FILES →
      MAX_FILES < l0.count + items.length →
      insert_all items l0 = Except.error (Fatal.die 1) := by
  induction items with
  | nil =>
    intro l0 _ h1 h2
    simp only [List.length_nil, Nat.cast_zero, add_zero] at h2
    omega
  | cons p rest ih =>
    intro l0 h0 h1 h2
    obtain ⟨st, name⟩ := p
    simp only [List.length_cons, Nat.cast_add, Nat.cast_one] at h2
    by_cases hfull : l0.count = MAX_FILES
    · simp only [insert_all, add_file_to_list_full st name l0 (le_of_eq hfull.symm)]
    · have hlt : l0.count < MAX_FILES := lt_of_le_of_ne h1 hfull
      simp only [insert_all, add_file_to_list_ok st name l0 h0 hlt]
      apply ih
      · show 0 ≤ l0.count + 1; omega
      · show l0.count + 1 ≤ MAX_FILES; omega
      · show MAX_FILES < l0.count + 1 + _; omega

theorem insert_all_ok_length (items : List (STAT × CStr)) (l0 l : FILEINFO)
    (h0 : l0.count = 0) (h : insert_all items l0 = Except.ok l) :
    (items.length : Int) ≤ MAX_FILES := by
  by_contra hlt
  have := insert_all_overflow items l0 (by omega) (by simp [h0, MAX_FILES])
    (by rw [h0]; omega)
  rw [this] at h
  cases h

/-! ## Enumeration -/

theorem list_directory_loop_spec (entries : List DIRENT) :
    ∀ g : GLOBALS, (∀ k, 0 ≤ (g.list k).count) →
      (∀ k, (g.list k).count + ((entries.filterMap (DIRENT.inClass k)).length : Int)
        ≤ MAX_FILES) →
      ∃ g1, list_directory_loop entries g = Except.ok g1 ∧
        ∀ k, (g1.list k).entries = (g.list k).entries ++ entries.filterMap (DIRENT.inClass k) ∧
          (g1.list k).count
            = (g.list k).count + ((entries.filterMap (DIRENT.inClass k)).length : Int) := by
  induction entries with
  | nil =>
    intro g _ _
    exact ⟨g, rfl, fun k => by simp⟩
  | cons e rest ih =>
    intro g hpos hcap
    obtain ⟨name, stat⟩ := e
    cases stat with
    | none =>
      have hnone : ∀ k, DIRENT.inClass k { d_name := name, stat := none } = none :=
        fun _ => rfl
      have hcap1 : ∀ k, (g.list k).count
          + ((rest.filterMap (DIRENT.inClass k)).length : Int) ≤ MAX_FILES := by
        intro k
        have := hcap k
        rwa [List.filterMap_cons_none (hnone k)] at this
      obtain ⟨g1, hg1, hlists⟩ := ih g hpos hcap1
      refine ⟨g1, ?_, ?_⟩
      · simp only [list_directory_loop, list_directory_entry_nostat, hg1]
      · intro k
        rw [List.filterMap_cons_none (hnone k)]
        exact hlists k
    | some st =>
      have hin0 : DIRENT.inClass (classify st.st_mode) { d_name := name, stat := some st }
          = some (FILEDATA.ofStat name st) := by
        simp only [DIRENT.inClass, if_true]
      have hin : ∀ k, k ≠ classify st.st_mode →
          DIRENT.inClass k { d_name := name, stat := some st } = none := by
        intro k hk
        simp only [DIRENT.inClass]
        exact if_neg (fun h => hk h.symm)
      have h0 := hpos (classify st.st_mode)
      have h1 : (g.list (classify st.st_mode)).count < MAX_FILES := by
        have := hcap (classify st.st_mode)
        rw [List.filterMap_cons_some hin0] at this
        simp only [List.length_cons, Nat.cast_add, Nat.cast_one] at this
        omega
      obtain ⟨g1, hstep, hadd, hother⟩ := list_directory_entry_stat name st g h0 h1
      have hnew := Except.ok.inj ((add_file_to_list_ok st name _ h0 h1).symm.trans hadd)
      have hpos1 : ∀ k, 0 ≤ (g1.list k).count := by
        intro k
        by_cases hk : k = classify st.st_mode
        · subst hk
          rw [← hnew]
          show 0 ≤ (g.list (classify st.st_mode)).count + 1
          omega
        · rw [hother k hk]
          exact hpos k
      have hcap1 : ∀ k, (g1.list k).count
          + ((rest.filterMap (DIRENT.inClass k)).length : Int) ≤ MAX_FILES := by
        intro k
        have := hcap k
        by_cases hk : k = classify st.st_mode
        · subst hk
          rw [List.filterMap_cons_some hin0] at this
          simp only [List.length_cons, Nat.cast_add, Nat.cast_one] at this
          rw [← hnew]
          show (g.list (classify st.st_mode)).count + 1 + _ ≤ _
          omega
        · rw [List.filterMap_cons_none (hin k hk)] at this
          rw [hother k hk]
          exact this
      obtain ⟨g2, hg2, hlists⟩ := ih g1 hpos1 hcap1
      refine ⟨g2, ?_, ?_⟩
      · simp only [list_directory_loop, hstep, hg2]
      · intro k
        obtain ⟨he, hc⟩ := hlists k
        by_cases hk : k = classify st.st_mode
        · subst hk
          rw [List.filterMap_cons_some hin0, he, hc, ← hnew,
            entries_after_store _ _ _ h0]
          constructor
          · simp
          · simp only [List.length_cons, Nat.cast_add, Nat.cast_one]
            omega
        · rw [List.filterMap_cons_none (hin k hk), he, hc, hother k hk]
          exact ⟨rfl, rfl⟩

theorem class_lengths_sum (entries : List DIRENT) :
    (entries.filterMap (DIRENT.inClass FileClass.Directory)).length
      + (entries.filterMap (DIRENT.inClass FileClass.CharacterDevice)).length
      + (entries.filterMap (DIRENT.inClass FileClass.FIFO)).length
      + (entries.filterMap (DIRENT.inClass FileClass.RegularFile)).length
      + (entries.filterMap (DIRENT.inClass FileClass.Other)).length
      = (entries.filter (fun e => e.stat.isSome)).length := by
  induction entries with
  | nil => rfl
  | cons e rest ih =>
    obtain ⟨name, stat⟩ := e
    cases stat with
    | none =>
      simp only [List.filterMap_cons, DIRENT.inClass, List.filter_cons, Option.isSome_none]
      exact ih
    | some st =>
      simp only [List.filterMap_cons, DIRENT.inClass, List.filter_cons, Option.isSome_some,
        if_true, List.length_cons]
      rw [← ih]
      cases classify st.st_mode <;> simp <;> omega

/-! ## Classification and enumeration: the claims -/

/-- C1: for every stat mode, `list_directory` inserts the entry into exactly
one of the five lists, the one that `classify` names from the file-type bits
`mode & S_IFMT` alone (directory, character device, FIFO, regular file, and
the misc list for every other value); the other four lists stay as they were;
modes with equal type bits go to the same list; and as long as the chosen list
has room, no mode makes the entry fail. -/
theorem classification_by_type_bits (name : CStr) (st : STAT) (g : GLOBALS)
    (h0 : 0 ≤ (g.list (classify st.st_mode)).count)
    (h1 : (g.list (classify st.st_mode)).count < MAX_FILES) :
    (∃ g1, list_directory_entry { d_name := name, stat := some st } g = Except.ok g1 ∧
      (g1.list (classify st.st_mode)).entries
        = (g.list (classify st.st_mode)).entries ++ [FILEDATA.ofStat name st] ∧
      (g1.list (classify st.st_mode)).count = (g.list (classify st.st_mode)).count + 1 ∧
      ∀ k, k ≠ classify st.st_mode → g1.list k = g.list k) ∧
    (st.st_mode &&& _S_IFMT = _S_IFDIR → classify st.st_mode = FileClass.Directory) ∧
    (st.st_mode &&& _S_IFMT = _S_IFCHR → classify st.st_mode = FileClass.CharacterDevice) ∧
    (st.st_mode &&& _S_IFMT = _S_IFIFO → classify st.st_mode = FileClass.FIFO) ∧
    (st.st_mode &&& _S_IFMT = _S_IFREG → classify st.st_mode = FileClass.RegularFile) ∧
    (st.st_mode &&& _S_IFMT ≠ _S_IFDIR → st.st_mode &&& _S_IFMT ≠ _S_IFCHR →
      st.st_mode &&& _S_IFMT ≠ _S_IFIFO → st.st_mode &&& _S_IFMT ≠ _S_IFREG →
      classify st.st_mode = FileClass.Other) ∧
    (∀ st2 : STAT, st2.st_mode &&& _S_IFMT = st.st_mode &&& _S_IFMT →
      classify st2.st_mode = classify st.st_mode) := by
  refine ⟨?_, ?_, ?_, ?_, ?_, ?_, ?_⟩
  · obtain ⟨g1, hstep, hadd, hother⟩ := list_directory_entry_stat name st g h0 h1
    have hnew := Except.ok.inj ((add_file_to_list_ok st name _ h0 h1).symm.trans hadd)
    refine ⟨g1, hstep, ?_, ?_, hother⟩
    · rw [← hnew, entries_after_store _ _ _ h0]
    · rw [← hnew]
  · intro h; simp [classify, h]
  · intro h; simp [classify, h, _S_IFCHR, _S_IFDIR]
  · intro h; simp [classify, h, _S_IFCHR, _S_IFDIR, _S_IFIFO]
  · intro h; simp [classify, h, _S_IFCHR, _S_IFDIR, _S_IFIFO, _S_IFREG]
  · intro ha hb hc hd; simp [classify, ha, hb, hc, hd]
  · intro st2 h; simp only [classify, h]

/-- The instance of C1 for the regular file `a` with mode `0100644` and five
empty lists. -/
theorem classification_by_type_bits_witness :
    (0 ≤ (start_globals.list (classify stat_regular.st_mode)).count ∧
      (start_globals.list (classify stat_regular.st_mode)).count < MAX_FILES) ∧
    classify stat_regular.st_mode = FileClass.RegularFile ∧
    ∃ g1, list_directory_entry { d_name := name_a, stat := some stat_regular } start_globals
        = Except.ok g1 ∧
      (g1.list (classify stat_regular.st_mode)).entries
        = (start_globals.list (classify stat_regular.st_mode)).entries
            ++ [FILEDATA.ofStat name_a stat_regular] ∧
      (g1.list (classify stat_regular.st_mode)).count
        = (start_globals.list (classify stat_regular.st_mode)).count + 1 ∧
      ∀ k, k ≠ classify stat_regular.st_mode → g1.list k = start_globals.list k :=
  have hc : classify stat_regular.st_mode = FileClass.RegularFile := by decide
  have h0 : 0 ≤ (start_globals.list (classify stat_regular.st_mode)).count := by
    rw [hc]; decide
  have h1 : (start_globals.list (classify stat_regular.st_mode)).count < MAX_FILES := by
    rw [hc]; decide
  ⟨⟨h0, h1⟩, hc, (classification_by_type_bits name_a stat_regular start_globals h0 h1).1⟩

/-- C2: enumeration neither drops nor duplicates entries.  When no class
receives more than `MAX_FILES` entries, `list_directory` returns, and each of
the five lists then holds, in discovery order, exactly the entries whose stat
succeeded and whose class is that list; an entry whose stat failed is in no
list and the entries after it are still processed; the five counts sum to the
number of entries whose stat succeeded. -/
theorem enumeration_complete (entries : List DIRENT) (g0 : GLOBALS)
    (hcap : ∀ k, ((entries.filterMap (DIRENT.inClass k)).length : Int) ≤ MAX_FILES) :
    ∃ g, list_directory (some entries) (init_lists g0) = Except.ok g ∧
      (∀ k, (g.list k).entries = entries.filterMap (DIRENT.inClass k)) ∧
      (∀ k, (g.list k).count = ((entries.filterMap (DIRENT.inClass k)).length : Int)) ∧
      g.dirs_list.count + g.char_list.count + g.fifo_list.count + g.files_list.count
          + g.misc_list.count
        = ((entries.filter (fun e => e.stat.isSome)).length : Int) := by
  have hzero : ∀ k, ((init_lists g0).list k).count = 0 := by
    intro k; cases k <;> rfl
  have hnil : ∀ k, ((init_lists g0).list k).entries = [] := by
    intro k; cases k <;> rfl
  obtain ⟨g, hg, hlists⟩ := list_directory_loop_spec entries (init_lists g0)
    (fun k => by rw [hzero k]) (fun k => by rw [hzero k, zero_add]; exact hcap k)
  have hcount : ∀ k, (g.list k).count
      = ((entries.filterMap (DIRENT.inClass k)).length : Int) := by
    intro k
    rw [(hlists k).2, hzero k, zero_add]
  refine ⟨g, hg, ?_, hcount, ?_⟩
  · intro k
    rw [(hlists k).1, hnil k, List.nil_append]
  · have hd := hcount FileClass.Directory
    have hc := hcount FileClass.CharacterDevice
    have hf := hcount FileClass.FIFO
    have hr := hcount FileClass.RegularFile
    have ho := hcount FileClass.Other
    simp only [GLOBALS.list] at hd hc hf hr ho
    rw [hd, hc, hf, hr, ho, ← class_lengths_sum entries]
    push_cast
    rfl

/-- The instance of C2 for a stream of a regular file, an entry whose stat
fails and a directory. -/
theorem enumeration_complete_witness :
    (∀ k, ((sample_entries.filterMap (DIRENT.inClass k)).length : Int) ≤ MAX_FILES) ∧
    ∃ g, list_directory (some sample_entries) (init_lists start_globals) = Except.ok g ∧
      (∀ k, (g.list k).entries = sample_entries.filterMap (DIRENT.inClass k)) ∧
      (∀ k, (g.list k).count = ((sample_entries.filterMap (DIRENT.inClass k)).length : Int)) ∧
      g.dirs_list.count + g.char_list.count + g.fifo_list.count + g.files_list.count
          + g.misc_list.count
        = ((sample_entries.filter (fun e => e.stat.isSome)).length : Int) :=
  have hcap : ∀ k, ((sample_entries.filterMap (DIRENT.inClass k)).length : Int) ≤ MAX_FILES :=
    fun k => by cases k <;> decide
  ⟨hcap, enumeration_complete sample_entries start_globals hcap⟩

/-- C3: a call of `add_file_to_list` on a list with `count = n < MAX_FILES`
succeeds and yields a list with `count = n + 1` whose place `n` holds the new
entry (the name and the mtime, size, link count and mode of the current stat
result), whose other places are unchanged, and whose `maxlen` is the maximum
of the old `maxlen` and the length of the name, so `maxlen` does not decrease. -/
theorem add_file_to_list_effect (st : STAT) (name : CStr) (l : FILEINFO) (n : Nat)
    (hn : l.count = n) (hlt : (n : Int) < MAX_FILES) :
    ∃ l1, add_file_to_list st name l = Except.ok l1 ∧
      l1.count = n + 1 ∧
      l1.files n = { filename := name, file_mtime := st.st_mtime, file_size := st.st_size,
                     file_nlinks := st.st_nlink, file_mode := st.st_mode } ∧
      (∀ i, i ≠ n → l1.files i = l.files i) ∧
      l1.entries = l.entries ++ [l1.files n] ∧
      l1.maxlen = max l.maxlen (strlen name) ∧
      l.maxlen ≤ l1.maxlen := by
  have h0 : 0 ≤ l.count := by omega
  have h1 : l.count < MAX_FILES := by omega
  have hidx : l.count.toNat = n := by omega
  refine ⟨_, add_file_to_list_ok st name l h0 h1, ?_, ?_, ?_, ?_, rfl, le_max_left _ _⟩
  · show l.count + 1 = n + 1
    omega
  · show Function.update l.files l.count.toNat (FILEDATA.ofStat name st) n = _
    rw [hidx, Function.update_same]
    rfl
  · intro i hi
    show Function.update l.files l.count.toNat (FILEDATA.ofStat name st) i = _
    rw [hidx]
    exact Function.update_noteq hi _ _
  · rw [entries_after_store l _ _ h0]
    show _ = _ ++ [Function.update l.files l.count.toNat (FILEDATA.ofStat name st) n]
    rw [hidx, Function.update_same]

/-- The instance of C3 for the insertion of `b.txt` into an empty list. -/
theorem add_file_to_list_effect_witness :
    (empty_list.count = (0 : Nat) ∧ ((0 : Nat) : Int) < MAX_FILES) ∧
    ∃ l1, add_file_to_list stat_regular name_b_txt empty_list = Except.ok l1 ∧
      l1.count = (0 : Nat) + 1 ∧
      l1.files 0 = { filename := name_b_txt, file_mtime := stat_regular.st_mtime,
                     file_size := stat_regular.st_size, file_nlinks := stat_regular.st_nlink,
                     file_mode := stat_regular.st_mode } ∧
      (∀ i, i ≠ 0 → l1.files i = empty_list.files i) ∧
      l1.entries = empty_list.entries ++ [l1.files 0] ∧
      l1.maxlen = max empty_list.maxlen (strlen name_b_txt) ∧
      empty_list.maxlen ≤ l1.maxlen :=
  ⟨⟨by decide, by decide⟩,
    add_file_to_list_effect stat_regular name_b_txt empty_list 0 (by decide) (by decide)⟩

/-- C4: after any sequence of successful insertions that starts from the empty
list (`count = 0`, `maxlen = 0`), the list holds the inserted entries in
order, `maxlen` is at least the length of every stored name, and `maxlen`
equals the maximum of the lengths of the stored names (`0` for no name). -/
theorem maxlen_is_longest_name (items : List (STAT × CStr)) (l0 l : FILEINFO)
    (hc : l0.count = 0) (hm : l0.maxlen = 0) (h : insert_all items l0 = Except.ok l) :
    l.entries = items.map (fun p => FILEDATA.ofStat p.2 p.1) ∧
    (∀ e ∈ l.entries, (strlen e.filename : Int) ≤ l.maxlen) ∧
    l.maxlen = (((l.entries.map (fun e => strlen e.filename)).foldr max 0 : Nat) : Int) := by
  have hlen := insert_all_ok_length items l0 l hc h
  obtain ⟨l2, hl2, -, hentries, hmaxlen, -⟩ := insert_all_spec items l0 (by omega) (by omega)
    (by rw [hc, zero_add]; exact hlen)
  have hl : l2 = l := Except.ok.inj (hl2.symm.trans h)
  subst hl
  have hnil : l0.entries = [] := by simp [FILEINFO.entries, hc]
  rw [hnil, List.nil_append] at hentries
  have hkeys : l2.entries.map (fun e => strlen e.filename) = items.map (fun p => strlen p.2) := by
    rw [hentries, List.map_map]
    rfl
  have hmax : l2.maxlen
      = (((l2.entries.map (fun e => strlen e.filename)).foldr max 0 : Nat) : Int) := by
    rw [hmaxlen, hm, hkeys]
    exact max_eq_right (Int.ofNat_nonneg _)
  refine ⟨hentries, ?_, hmax⟩
  intro e he
  rw [hmax]
  have hmem : strlen e.filename ∈ l2.entries.map (fun e => strlen e.filename) :=
    List.mem_map_of_mem _ he
  generalize l2.entries.map (fun e => strlen e.filename) = ks at hmem
  have hle : ∀ (ks : List Nat) (k : Nat), k ∈ ks → k ≤ ks.foldr max 0 := by
    intro ks
    induction ks with
    | nil => intro k hk; cases hk
    | cons x xs ih =>
      intro k hk
      simp only [List.foldr_cons]
      rcases List.mem_cons.mp hk with rfl | hk
      · exact le_max_left _ _
      · exact le_trans (ih k hk) (le_max_right _ _)
  exact_mod_cast hle ks _ hmem

/-- The instance of C4 for the insertion of `b.txt` and then `a`. -/
theorem maxlen_is_longest_name_witness :
    (empty_list.count = 0 ∧ empty_list.maxlen = 0) ∧
    ∃ l, insert_all [(stat_regular, name_b_txt), (stat_regular, name_a)] empty_list
        = Except.ok l ∧ l.maxlen = 5 ∧
      l.entries.map (fun e => e.filename) = [name_b_txt, name_a] :=
  ⟨⟨rfl, rfl⟩, _, rfl,
    by
      have h := maxlen_is_longest_name [(stat_regular, name_b_txt), (stat_regular, name_a)]
        empty_list _ rfl rfl rfl
      constructor
      · rw [h.2.2, h.1]; decide
      · rw [h.1]; decide⟩

theorem insert_all_reachable (items : List (STAT × CStr)) (l0 l : FILEINFO)
    (hc : l0.count = 0) (hm : l0.maxlen = 0) (h : insert_all items l0 = Except.ok l) :
    l.count = items.length ∧ l.count ≤ MAX_FILES ∧
      l.entries = items.map (fun p => FILEDATA.ofStat p.2 p.1) := by
  have hlen := insert_all_ok_length items l0 l hc h
  obtain ⟨l2, hl2, hcount, hentries, -, -⟩ := insert_all_spec items l0 (by omega) (by omega)
    (by rw [hc, zero_add]; exact hlen)
  have hl : l2 = l := Except.ok.inj (hl2.symm.trans h)
  subst hl
  have hnil : l0.entries = [] := by simp [FILEINFO.entries, hc]
  rw [hnil, List.nil_append] at hentries
  rw [hc, zero_add] at hcount
  exact ⟨hcount, by rw [hcount]; exact hlen, hentries⟩

theorem add_file_to_list_die_iff (st : STAT) (name : CStr) (l : FILEINFO) :
    add_file_to_list st name l = Except.error (Fatal.die 1) ↔ MAX_FILES ≤ l.count := by
  constructor
  · intro h
    by_contra hlt
    have hm : ¬ (l.count + 1 > MAX_FILES) := by omega
    simp only [add_file_to_list, if_neg hm, _strdup] at h
    split_ifs at h
    cases h
  · exact add_file_to_list_full st name l

/-- C5: on a list built by insertions from the empty list, `add_file_to_list`
ends the program through `die` with exit status 1 exactly when the count
before the call is `MAX_FILES` (2048); on any list at all it does so exactly
when the count is at least `MAX_FILES`.  So of
2049 insertions into an empty list every prefix of up to 2048 insertions
succeeds and the whole sequence ends in `die` with status 1; no list is
produced that holds the 2049th entry. -/
theorem capacity_overflow_is_fatal (items : List (STAT × CStr)) (l0 l : FILEINFO)
    (st : STAT) (name : CStr)
    (hc : l0.count = 0) (hm : l0.maxlen = 0) (h : insert_all items l0 = Except.ok l) :
    (add_file_to_list st name l = Except.error (Fatal.die 1) ↔ l.count = MAX_FILES) ∧
    (∀ l2 : FILEINFO,
      add_file_to_list st name l2 = Except.error (Fatal.die 1) ↔ MAX_FILES ≤ l2.count) ∧
    (∀ more : List (STAT × CStr), more.length = 2049 →
      (∀ n, n ≤ 2048 → ∃ l1, insert_all (more.take n) l0 = Except.ok l1 ∧ l1.count = n) ∧
      insert_all more l0 = Except.error (Fatal.die 1)) := by
  obtain ⟨-, hle, -⟩ := insert_all_reachable items l0 l hc hm h
  refine ⟨?_, add_file_to_list_die_iff st name, ?_⟩
  · rw [add_file_to_list_die_iff]
    constructor <;> intro h' <;> omega
  · intro more hmore
    constructor
    · intro n hn
      have hlen : (more.take n).length = n := by
        rw [List.length_take]; omega
      obtain ⟨l1, hl1, hcount1, -⟩ := insert_all_spec (more.take n) l0 (by omega) (by omega)
        (by rw [hc, zero_add, hlen]; simp only [MAX_FILES]; omega)
      exact ⟨l1, hl1, by rw [hcount1, hc, zero_add, hlen]⟩
    · apply insert_all_overflow more l0 (by omega) (by rw [hc]; decide)
      rw [hc, zero_add, hmore]
      decide

/-- The instance of C5 for 2048 insertions of `a` into the empty list: the
list is then full and one more insertion ends the program with status 1. -/
theorem capacity_overflow_is_fatal_witness :
    (empty_list.count = 0 ∧ empty_list.maxlen = 0) ∧
    ∃ l, insert_all (List.replicate 2048 (stat_regular, name_a)) empty_list = Except.ok l ∧
      l.count = MAX_FILES ∧
      add_file_to_list stat_regular name_b_txt l = Except.error (Fatal.die 1) ∧
      insert_all (List.replicate 2049 (stat_regular, name_a)) empty_list
        = Except.error (Fatal.die 1) := by
  refine ⟨⟨rfl, rfl⟩, ?_⟩
  obtain ⟨l, hl, hcount, -⟩ := insert_all_spec (List.replicate 2048 (stat_regular, name_a))
    empty_list (by decide) (by decide) (by rw [List.length_replicate]; decide)
  have hfull : l.count = MAX_FILES := by
    rw [hcount, List.length_replicate]; decide
  have hclaim := capacity_overflow_is_fatal (List.replicate 2048 (stat_regular, name_a))
    empty_list l stat_regular name_b_txt rfl rfl hl
  exact ⟨l, hl, hfull, hclaim.1.mpr hfull,
    (hclaim.2.2 (List.replicate 2049 (stat_regular, name_a)) (List.length_replicate _ _)).2⟩

/-- C6: in every list state reached from the empty list by calls of
`add_file_to_list`, `count` equals the number of entries stored (the list
holds exactly the inserted entries, one per successful call, in order) and
`count` is at most `MAX_FILES` (2048). -/
theorem capacity_invariant (items : List (STAT × CStr)) (l0 l : FILEINFO)
    (hc : l0.count = 0) (hm : l0.maxlen = 0) (h : insert_all items l0 = Except.ok l) :
    l.count = items.length ∧
    l.entries = items.map (fun p => FILEDATA.ofStat p.2 p.1) ∧
    l.count = l.entries.length ∧
    0 ≤ l.count ∧ l.count ≤ MAX_FILES := by
  obtain ⟨hcount, hle, hentries⟩ := insert_all_reachable items l0 l hc hm h
  refine ⟨hcount, hentries, ?_, by omega, hle⟩
  rw [hentries, List.length_map, hcount]

/-- The instance of C6 for the insertion of `b.txt` and then `A.txt`. -/
theorem capacity_invariant_witness :
    (empty_list.count = 0 ∧ empty_list.maxlen = 0) ∧
    ∃ l, insert_all [(stat_regular, name_b_txt), (stat_regular, name_upper_a_txt)] empty_list
        = Except.ok l ∧ l.count = 2 ∧ l.entries.length = 2 ∧ l.count ≤ MAX_FILES :=
  ⟨⟨rfl, rfl⟩, _, rfl,
    by
      have h := capacity_invariant
        [(stat_regular, name_b_txt), (stat_regular, name_upper_a_txt)] empty_list _ rfl rfl rfl
      exact ⟨h.1, by rw [h.2.1]; rfl, h.2.2.2.2⟩⟩

/-! ## The comparators -/

theorem tolower_pos (c : Nat) (h : 0 < c) : 0 < tolower c := by
  unfold tolower
  split_ifs <;> omega

theorem lex_cons_same (p : Nat) (l1 l2 : List Nat) :
    List.Lex (· < ·) (p :: l1) (p :: l2) ↔ List.Lex (· < ·) l1 l2 := by
  constructor
  · intro h
    cases h with
    | cons h => exact h
    | rel hr => exact absurd hr (lt_irrefl _)
  · exact List.Lex.cons

theorem lex_cons_ne (p q : Nat) (hne : p ≠ q) (l1 l2 : List Nat) :
    List.Lex (· < ·) (p :: l1) (q :: l2) ↔ p < q := by
  constructor
  · intro h
    cases h with
    | cons h => exact absurd rfl hne
    | rel hr => exact hr
  · exact List.Lex.rel

theorem strcasecmp_bytes_le_iff (a : List Nat) (ha : ∀ x ∈ a, 0 < x) :
    ∀ b : List Nat,
      strcasecmp_bytes a b ≤ 0 ↔ ¬ List.Lex (· < ·) (b.map tolower) (a.map tolower) := by
  induction a with
  | nil =>
    intro b
    cases b with
    | nil => simp [strcasecmp_bytes]
    | cons y ys =>
      simp only [strcasecmp_bytes, List.map_cons, List.map_nil]
      constructor
      · intro _ hl; cases hl
      · intro _; omega
  | cons x xs ih =>
    intro b
    have hx : 0 < tolower x := tolower_pos x (ha x (List.mem_cons_self _ _))
    cases b with
    | nil =>
      simp only [strcasecmp_bytes, List.map_cons, List.map_nil]
      constructor
      · intro h; omega
      · intro h; exact absurd List.Lex.nil h
    | cons y ys =>
      simp only [strcasecmp_bytes, List.map_cons]
      by_cases hxy : tolower x = tolower y
      · rw [if_neg (not_not.mpr hxy), ih (fun z hz => ha z (List.mem_cons_of_mem _ hz)) ys, hxy,
          lex_cons_same]
      · rw [if_pos hxy, lex_cons_ne _ _ (Ne.symm hxy)]
        omega

theorem compare_name_le_iff (a b : FILEDATA) :
    compare_name a b ≤ 0 ↔ casefold a.filename ≤ casefold b.filename := by
  unfold compare_name _strcasecmp casefold
  rw [strcasecmp_bytes_le_iff _ (fun x hx => (a.filename.valid x hx).1), ← not_lt]
  rfl

theorem compare_time_le_iff (a b : FILEDATA) :
    compare_time a b ≤ 0 ↔ a.file_mtime ≤ b.file_mtime := by
  unfold compare_time
  split_ifs <;> omega

/-! ## Sorting against the contract of `qsort` -/

theorem ascending_iff_chain (compar : FILEDATA → FILEDATA → Int) (xs : List FILEDATA) :
    Ascending compar xs ↔ xs.Chain' (fun a b => compar a b ≤ 0) := by
  induction xs with
  | nil => simp [Ascending]
  | cons a rest ih =>
    cases rest with
    | nil => simp [Ascending]
    | cons b rest => simp only [Ascending, List.chain'_cons, ih]

theorem ascending_iff_sorted_keys {κ : Type} [LinearOrder κ]
    (compar : FILEDATA → FILEDATA → Int) (key : FILEDATA → κ)
    (hk : ∀ a b, compar a b ≤ 0 ↔ key a ≤ key b) (xs : List FILEDATA) :
    Ascending compar xs ↔ (xs.map key).Sorted (· ≤ ·) := by
  haveI : IsTrans FILEDATA (fun a b => key a ≤ key b) := ⟨fun _ _ _ => le_trans⟩
  have hrel : (fun a b => compar a b ≤ 0) = (fun a b => key a ≤ key b) := by
    funext a b
    exact propext (hk a b)
  unfold List.Sorted
  rw [ascending_iff_chain, hrel, List.chain'_iff_pairwise, List.pairwise_map]

theorem qsort_result_exists {κ : Type} [LinearOrder κ]
    (compar : FILEDATA → FILEDATA → Int) (key : FILEDATA → κ)
    (hk : ∀ a b, compar a b ≤ 0 ↔ key a ≤ key b)
    (xs : List FILEDATA) : ∃ ys, qsort_result compar xs ys := by
  haveI : IsTrans FILEDATA (fun a b => key a ≤ key b) := ⟨fun _ _ _ => le_trans⟩
  haveI : IsTotal FILEDATA (fun a b => key a ≤ key b) := ⟨fun _ _ => le_total _ _⟩
  refine ⟨xs.insertionSort (fun a b => key a ≤ key b), List.perm_insertionSort _ xs, ?_⟩
  rw [ascending_iff_sorted_keys compar key hk]
  have hs := List.sorted_insertionSort (fun a b => key a ≤ key b) xs
  exact List.pairwise_map.mpr hs

theorem qsort_result_keys {κ : Type} [LinearOrder κ]
    (compar : FILEDATA → FILEDATA → Int) (key : FILEDATA → κ)
    (hk : ∀ a b, compar a b ≤ 0 ↔ key a ≤ key b)
    (xs ys zs : List FILEDATA) (hy : qsort_result compar xs ys) (hz : qsort_result compar xs zs) :
    ys.map key = zs.map key := by
  apply List.eq_of_perm_of_sorted (r := (· ≤ ·))
  · exact (hy.1.trans hz.1.symm).map key
  · exact (ascending_iff_sorted_keys compar key hk ys).mp hy.2
  · exact (ascending_iff_sorted_keys compar key hk zs).mp hz.2

theorem eq_of_map_key_eq {κ : Type} (key : FILEDATA → κ) :
    ∀ (ys zs : List FILEDATA), ys.map key = zs.map key →
      (∀ a ∈ ys, ∀ b ∈ zs, key a = key b → a = b) → ys = zs := by
  intro ys
  induction ys with
  | nil =>
    intro zs h _
    cases zs with
    | nil => rfl
    | cons z zs => cases h
  | cons y ys ih =>
    intro zs h hinj
    cases zs with
    | nil => cases h
    | cons z zs =>
      simp only [List.map_cons, List.cons.injEq] at h
      have hyz : y = z := hinj y (List.mem_cons_self _ _) z (List.mem_cons_self _ _) h.1
      rw [hyz, ih zs h.2 (fun a ha b hb =>
        hinj a (List.mem_cons_of_mem _ ha) b (List.mem_cons_of_mem _ hb))]

theorem qsort_result_unique {κ : Type} [LinearOrder κ]
    (compar : FILEDATA → FILEDATA → Int) (key : FILEDATA → κ)
    (hk : ∀ a b, compar a b ≤ 0 ↔ key a ≤ key b)
    (xs ys zs : List FILEDATA) (hy : qsort_result compar xs ys) (hz : qsort_result compar xs zs)
    (hinj : ∀ a ∈ xs, ∀ b ∈ xs, key a = key b → a = b) : ys = zs :=
  eq_of_map_key_eq key ys zs (qsort_result_keys compar key hk xs ys zs hy hz)
    (fun a ha b hb => hinj a (hy.1.subset ha) b (hz.1.subset hb))

theorem entries_store_sorted (l : FILEINFO) (sorted : List FILEDATA)
    (hlen : sorted.length = l.count.toNat) :
    FILEINFO.entries { l with files := store_sorted l.files sorted } = sorted := by
  unfold FILEINFO.entries store_sorted
  apply List.ext_getElem
  · simp [hlen]
  · intro i h1 h2
    simp [List.getD_eq_getElem?_getD, List.getElem?_eq_getElem h2]

theorem sort_list_result (opt_t : Bool) (l l1 : FILEINFO) (h : sort_list opt_t l l1) :
    qsort_result (comparator opt_t) l.entries l1.entries ∧
      l1.count = l.count ∧ l1.maxlen = l.maxlen ∧
      ∀ i, l.count.toNat ≤ i → l1.files i = l.files i := by
  obtain ⟨-, -, sorted, hq, rfl⟩ := h
  have hlen : sorted.length = l.count.toNat := by
    rw [hq.1.length_eq]
    simp [FILEINFO.entries]
  rw [entries_store_sorted l sorted hlen]
  refine ⟨hq, rfl, rfl, ?_⟩
  intro i hi
  show sorted.getD i (l.files i) = l.files i
  exact List.getD_eq_default _ _ (by omega)

theorem comparator_name : comparator false = compare_name := rfl

theorem comparator_time : comparator true = compare_time := rfl

theorem sort_list_total (opt_t : Bool) (l : FILEINFO) (h0 : 0 ≤ l.count)
    (h1 : l.count ≤ MAX_FILES) : ∃ l1, sort_list opt_t l l1 := by
  cases opt_t with
  | false =>
    obtain ⟨ys, hys⟩ := qsort_result_exists compare_name (fun a => casefold a.filename)
      compare_name_le_iff l.entries
    exact ⟨_, h0, h1, ys, hys, rfl⟩
  | true =>
    obtain ⟨ys, hys⟩ := qsort_result_exists compare_time (fun a => a.file_mtime)
      compare_time_le_iff l.entries
    exact ⟨_, h0, h1, ys, hys, rfl⟩

theorem sort_list_again_keys {κ : Type} [LinearOrder κ] (opt_t : Bool) (key : FILEDATA → κ)
    (hk : ∀ a b, comparator opt_t a b ≤ 0 ↔ key a ≤ key b) (l l1 l2 : FILEINFO)
    (h1 : sort_list opt_t l l1) (h2 : sort_list opt_t l1 l2) :
    l2.entries.map key = l1.entries.map key ∧
      ((∀ a ∈ l.entries, ∀ b ∈ l.entries, key a = key b → a = b) →
        l2.entries = l1.entries) := by
  have hq1 := (sort_list_result opt_t l l1 h1).1
  have hq2 := (sort_list_result opt_t l1 l2 h2).1
  have hself : qsort_result (comparator opt_t) l1.entries l1.entries :=
    ⟨List.Perm.refl _, hq1.2⟩
  refine ⟨qsort_result_keys _ key hk _ _ _ hq2 hself, ?_⟩
  intro hinj
  exact qsort_result_unique _ key hk _ _ _ hq2 hself
    (fun a ha b hb => hinj a (hq1.1.subset ha) b (hq1.1.subset hb))

/-! ## Sorting: the claims -/

/-- C7: the name sort orders case-insensitively.  For every list whose
elements lie inside the array the sort produces a result, and in every result
each adjacent pair `a`, `b` satisfies `compare_name a b ≤ 0`, which is the
same as `casefold a.filename ≤ casefold b.filename` in lexicographic byte
order.  The files `b.txt`, `A.txt` come out as `A.txt`, `b.txt`. -/
theorem name_sort_case_insensitive (l : FILEINFO) (h0 : 0 ≤ l.count)
    (h1 : l.count ≤ MAX_FILES) :
    (∃ l1, sort_list false l l1) ∧
    (∀ l1, sort_list false l l1 →
      l1.entries.Chain' (fun a b =>
        compare_name a b ≤ 0 ∧ casefold a.filename ≤ casefold b.filename) ∧
      (l.entries.map (fun e => e.filename) = [name_b_txt, name_upper_a_txt] →
        l1.entries.map (fun e => e.filename) = [name_upper_a_txt, name_b_txt])) ∧
    (∀ a b : FILEDATA,
      compare_name a b ≤ 0 ↔ casefold a.filename ≤ casefold b.filename) := by
  refine ⟨sort_list_total false l h0 h1, ?_, compare_name_le_iff⟩
  intro l1 hsort
  obtain ⟨hq, -, -, -⟩ := sort_list_result false l l1 hsort
  rw [comparator_name] at hq
  constructor
  · refine List.Chain'.imp ?_ ((ascending_iff_chain compare_name _).mp hq.2)
    intro a b hab
    exact ⟨hab, (compare_name_le_iff a b).mp hab⟩
  · intro hnames
    generalize l.entries = xs at hq hnames
    rcases xs with _ | ⟨e1, _ | ⟨e2, _ | ⟨e3, rest⟩⟩⟩ <;>
      simp only [List.map_nil, List.map_cons, List.cons.injEq, and_true, reduceCtorEq,
        and_false] at hnames
    obtain ⟨hn1, hn2⟩ := hnames
    have hswap : qsort_result compare_name [e1, e2] [e2, e1] := by
      refine ⟨List.Perm.swap _ _ _, ?_⟩
      simp only [Ascending, and_true, compare_name, hn1, hn2]
      decide
    have hinj : ∀ a ∈ [e1, e2], ∀ b ∈ [e1, e2],
        casefold a.filename = casefold b.filename → a = b := by
      have hne : casefold name_b_txt ≠ casefold name_upper_a_txt := by decide
      intro a ha b hb hab
      simp only [List.mem_cons, List.mem_singleton, List.not_mem_nil, or_false] at ha hb
      rcases ha with rfl | rfl <;> rcases hb with rfl | rfl
      · rfl
      · rw [hn1, hn2] at hab; exact absurd hab hne
      · rw [hn1, hn2] at hab; exact absurd hab.symm hne
      · rfl
    rw [qsort_result_unique compare_name (fun a => casefold a.filename) compare_name_le_iff
      _ _ _ hq hswap hinj]
    simp only [List.map_cons, List.map_nil, hn1, hn2]

theorem two_files_sort : sort_list false two_files two_files_sorted :=
  ⟨by decide, by decide, [entry_upper_a_txt, entry_b_txt],
    ⟨List.Perm.swap _ _ _, by decide⟩, rfl⟩

theorem tied_files_sort (opt_t : Bool) : sort_list opt_t tied_files tied_files_swapped :=
  ⟨by decide, by decide, [entry_upper_a, entry_a],
    ⟨List.Perm.swap _ _ _, by cases opt_t <;> decide⟩, rfl⟩

theorem tied_files_sort_again (opt_t : Bool) :
    sort_list opt_t tied_files_swapped tied_files_swapped_back :=
  ⟨by decide, by decide, [entry_a, entry_upper_a],
    ⟨List.Perm.swap _ _ _, by cases opt_t <;> decide⟩, rfl⟩

/-- The instance of C7 for the files `b.txt`, `A.txt`. -/
theorem name_sort_case_insensitive_witness :
    (0 ≤ two_files.count ∧ two_files.count ≤ MAX_FILES) ∧
    sort_list false two_files two_files_sorted ∧
    two_files_sorted.entries.map (fun e => e.filename) = [name_upper_a_txt, name_b_txt] ∧
    two_files_sorted.entries.Chain' (fun a b =>
      compare_name a b ≤ 0 ∧ casefold a.filename ≤ casefold b.filename) :=
  have h := (name_sort_case_insensitive two_files (by decide) (by decide)).2.1
    two_files_sorted two_files_sort
  ⟨⟨by decide, by decide⟩, two_files_sort, h.2 rfl, h.1⟩

/-- C8: the time sort puts earlier modification times first.  For every list
whose elements lie inside the array the sort produces a result, and in every
result the `file_mtime` values are non-decreasing from first to last;
`compare_time a b` is `-1` when `a` is older than `b`, `0` when the two times
are equal and `1` when `a` is newer. -/
theorem time_sort_earlier_first (l : FILEINFO) (h0 : 0 ≤ l.count)
    (h1 : l.count ≤ MAX_FILES) :
    (∃ l1, sort_list true l l1) ∧
    (∀ l1, sort_list true l l1 →
      (l1.entries.map (fun e => e.file_mtime)).Pairwise (· ≤ ·) ∧
      l1.entries.Chain' (fun a b => a.file_mtime ≤ b.file_mtime)) ∧
    (∀ a b : FILEDATA,
      (a.file_mtime < b.file_mtime → compare_time a b = -1) ∧
      (a.file_mtime = b.file_mtime → compare_time a b = 0) ∧
      (b.file_mtime < a.file_mtime → compare_time a b = 1)) := by
  refine ⟨sort_list_total true l h0 h1, ?_, ?_⟩
  · intro l1 hsort
    obtain ⟨hq, -, -, -⟩ := sort_list_result true l l1 hsort
    rw [comparator_time] at hq
    constructor
    · exact (ascending_iff_sorted_keys compare_time (fun e => e.file_mtime)
        compare_time_le_iff _).mp hq.2
    · refine List.Chain'.imp ?_ ((ascending_iff_chain compare_time _).mp hq.2)
      intro a b hab
      exact (compare_time_le_iff a b).mp hab
  · intro a b
    unfold compare_time
    refine ⟨?_, ?_, ?_⟩ <;> intro h <;> split_ifs <;> first | rfl | omega

/-- The instance of C8 for the files `a`, `A`, which have the same time. -/
theorem time_sort_earlier_first_witness :
    (0 ≤ tied_files.count ∧ tied_files.count ≤ MAX_FILES) ∧
    sort_list true tied_files tied_files_swapped ∧
    (tied_files_swapped.entries.map (fun e => e.file_mtime)).Pairwise (· ≤ ·) :=
  ⟨⟨by decide, by decide⟩, tied_files_sort true,
    ((time_sort_earlier_first tied_files (by decide) (by decide)).2.1
      tied_files_swapped (tied_files_sort true)).1⟩

/-- C9: sorting loses and duplicates nothing.  For either comparator and
every list whose elements lie inside the array, tied keys or not, the sort
produces a result, and in every result the sequence of entries is a
permutation of the sequence before the sort (every entry occurs as many times
as before), and `count` and `maxlen` are unchanged. -/
theorem sort_is_permutation (opt_t : Bool) (l : FILEINFO) (h0 : 0 ≤ l.count)
    (h1 : l.count ≤ MAX_FILES) :
    (∃ l1, sort_list opt_t l l1) ∧
    ∀ l1, sort_list opt_t l l1 →
      l1.entries.Perm l.entries ∧
      (∀ e, l1.entries.count e = l.entries.count e) ∧
      l1.entries.length = l.entries.length ∧
      l1.count = l.count ∧ l1.maxlen = l.maxlen := by
  refine ⟨sort_list_total opt_t l h0 h1, ?_⟩
  intro l1 hsort
  obtain ⟨hq, hcount, hmaxlen, -⟩ := sort_list_result opt_t l l1 hsort
  exact ⟨hq.1, fun e => hq.1.count_eq e, hq.1.length_eq, hcount, hmaxlen⟩

/-- The instance of C9 for the name sort of the tied files `a`, `A`. -/
theorem sort_is_permutation_witness :
    (0 ≤ tied_files.count ∧ tied_files.count ≤ MAX_FILES) ∧
    sort_list false tied_files tied_files_swapped ∧
    tied_files_swapped.entries.Perm tied_files.entries ∧
    tied_files_swapped.count = tied_files.count ∧
    tied_files_swapped.maxlen = tied_files.maxlen :=
  have h := (sort_is_permutation false tied_files (by decide) (by decide)).2
    tied_files_swapped (tied_files_sort false)
  ⟨⟨by decide, by decide⟩, tied_files_sort false, h.1, h.2.2.2.1, h.2.2.2.2⟩

/-- C10 as stated fails: the files `a` and `A` tie under both comparators (the
same case-folded name, the same modification time).  `A`, `a` is a result of
sorting `a`, `A`, and `a`, `A` is a result of sorting `A`, `a` again with the
same comparator, so the second sort of an already sorted list changes the
sequence of entries. -/
theorem sort_twice_differs_on_ties :
    compare_name entry_a entry_upper_a = 0 ∧ compare_time entry_a entry_upper_a = 0 ∧
    (sort_list false tied_files tied_files_swapped ∧
      sort_list false tied_files_swapped tied_files_swapped_back ∧
      tied_files_swapped_back.entries ≠ tied_files_swapped.entries) ∧
    (sort_list true tied_files tied_files_swapped ∧
      sort_list true tied_files_swapped tied_files_swapped_back ∧
      tied_files_swapped_back.entries ≠ tied_files_swapped.entries) :=
  ⟨by decide, by decide,
    ⟨tied_files_sort false, tied_files_sort_again false, by decide⟩,
    ⟨tied_files_sort true, tied_files_sort_again true, by decide⟩⟩

/-- C10, amended: sorting a list that is already the result of a sort with the
same comparator keeps the sequence of sort keys: position by position the
second result has the case-folded names of the first (name sort), the
modification times of the first (time sort).  The sequence of entries itself
is identical whenever no two different entries of the list have the same key. -/
theorem sort_twice_same_keys (l l1 l2 : FILEINFO) :
    (sort_list false l l1 → sort_list false l1 l2 →
      l2.entries.map (fun e => casefold e.filename)
        = l1.entries.map (fun e => casefold e.filename) ∧
      ((∀ a ∈ l.entries, ∀ b ∈ l.entries,
          casefold a.filename = casefold b.filename → a = b) →
        l2.entries = l1.entries)) ∧
    (sort_list true l l1 → sort_list true l1 l2 →
      l2.entries.map (fun e => e.file_mtime) = l1.entries.map (fun e => e.file_mtime) ∧
      ((∀ a ∈ l.entries, ∀ b ∈ l.entries, a.file_mtime = b.file_mtime → a = b) →
        l2.entries = l1.entries)) :=
  ⟨sort_list_again_keys false (fun e => casefold e.filename) compare_name_le_iff l l1 l2,
    sort_list_again_keys true (fun e => e.file_mtime) compare_time_le_iff l l1 l2⟩

/-- The instance of amended C10 for the tied files `a`, `A`: the second name
sort may swap the two entries, and the case-folded names stay in place. -/
theorem sort_twice_same_keys_witness :
    sort_list false tied_files tied_files_swapped ∧
    sort_list false tied_files_swapped tied_files_swapped_back ∧
    tied_files_swapped_back.entries.map (fun e => casefold e.filename)
      = tied_files_swapped.entries.map (fun e => casefold e.filename) :=
  ⟨tied_files_sort false, tied_files_sort_again false,
    ((sort_twice_same_keys tied_files tied_files_swapped tied_files_swapped_back).1
      (tied_files_sort false) (tied_files_sort_again false)).1⟩

/-! ## The column formatter -/

theorem report_calls_dump_loop (mlw w : Int) (es : List FILEDATA) :
    ∀ lw : Int, report_calls (dump_loop mlw w es lw) = dump_loop mlw w es lw := by
  induction es with
  | nil => intro lw; rfl
  | cons e rest ih =>
    intro lw
    unfold report_calls at ih ⊢
    simp only [dump_loop]
    split_ifs
    · rw [List.filter_cons_of_pos (by rfl), List.filter_cons_of_pos (by rfl), ih]
    · rw [List.filter_cons_of_pos (by rfl), ih]

theorem report_calls_debug_print (opt_d : Bool) (message : List Nat) :
    report_calls (debug_print opt_d message) = [] := by
  cases opt_d <;> rfl

theorem report_calls_append (a b : List OUT) :
    report_calls (a ++ b) = report_calls a ++ report_calls b :=
  List.filter_append a b

theorem dump_list_of_empty (opt_d : Bool) (mlw : Int) (l : FILEINFO) (title : CStr)
    (h : l.count ≤ 0) :
    dump_list opt_d mlw l title = debug_print opt_d
      (ascii "dump_list(" ++ title.bytes ++ ascii ") count = " ++ format_d l.count ++ [10]) := by
  simp only [dump_list, if_pos h, List.append_nil]

theorem dump_list_calls (opt_d : Bool) (mlw : Int) (l : FILEINFO) (title : CStr)
    (h : 0 < l.count) :
    report_calls (dump_list opt_d mlw l title)
      = OUT.newline :: OUT.title title l.count
          :: (dump_loop mlw (l.maxlen + 1) l.entries 0 ++ [OUT.newline]) := by
  have hn : ¬ l.count ≤ 0 := by omega
  simp only [dump_list, if_neg hn, report_calls_append, report_calls_debug_print,
    report_calls_dump_loop, List.nil_append]
  rfl

theorem filter_field_dump_loop (mlw w : Int) (es : List FILEDATA) :
    ∀ lw : Int, (dump_loop mlw w es lw).filter OUT.isField
      = es.map (fun e => OUT.field w w e.filename) := by
  induction es with
  | nil => intro lw; rfl
  | cons e rest ih =>
    intro lw
    simp only [dump_loop]
    split_ifs
    · simp only [List.filter_cons, OUT.isField, Bool.false_eq_true, if_false, if_true, ih,
        List.map_cons]
    · simp only [List.filter_cons, OUT.isField, if_true, ih, List.map_cons]

theorem filter_field_debug_print (opt_d : Bool) (message : List Nat) :
    (debug_print opt_d message).filter OUT.isField = [] := by
  cases opt_d <;> rfl

theorem dump_list_fields (opt_d : Bool) (mlw : Int) (l : FILEINFO) (title : CStr) :
    (dump_list opt_d mlw l title).filter OUT.isField
      = l.entries.map (fun e => OUT.field (l.maxlen + 1) (l.maxlen + 1) e.filename) := by
  by_cases h : l.count ≤ 0
  · have hnil : l.entries = [] := by
      have : l.count.toNat = 0 := by omega
      simp [FILEINFO.entries, this]
    rw [dump_list_of_empty opt_d mlw l title h, filter_field_debug_print, hnil]
    rfl
  · simp only [dump_list, if_neg h, List.filter_append, filter_field_debug_print,
      filter_field_dump_loop, List.nil_append]
    simp [List.filter_cons, OUT.isField]

theorem format_s_left_whole (m : Int) (s : CStr) (hlen : (strlen s : Int) ≤ m) :
    format_s_left (m + 1) (m + 1) s
        = s.bytes ++ List.replicate (m + 1 - (strlen s : Int)).toNat 32 ∧
      1 ≤ m + 1 - (strlen s : Int) ∧
      ((format_s_left (m + 1) (m + 1) s).length : Int) = m + 1 := by
  have hpos : ¬ (m + 1 < 0) := by omega
  have htake : s.bytes.take (m + 1).toNat = s.bytes := by
    apply List.take_of_length_le
    unfold strlen at hlen
    omega
  have hpad : (m + 1).natAbs - s.bytes.length = (m + 1 - (strlen s : Int)).toNat := by
    unfold strlen
    omega
  have hbytes : format_s_left (m + 1) (m + 1) s
      = s.bytes ++ List.replicate (m + 1 - (strlen s : Int)).toNat 32 := by
    simp only [format_s_left, if_neg hpos, htake, hpad]
  refine ⟨hbytes, by omega, ?_⟩
  rw [hbytes, List.length_append, List.length_replicate]
  unfold strlen at hlen ⊢
  omega

theorem format_s_left_length (w : Int) (s : CStr) (hw : 0 ≤ w) :
    ((format_s_left w w s).length : Int) = w := by
  have hpos : ¬ (w < 0) := by omega
  simp only [format_s_left, if_neg hpos, List.length_append, List.length_replicate,
    List.length_take]
  omega

theorem insert_all_names_bounded (items : List (STAT × CStr)) (l0 l : FILEINFO)
    (hc : l0.count = 0) (hm : l0.maxlen = 0) (h : insert_all items l0 = Except.ok l) :
    0 ≤ l.maxlen ∧ ∀ e ∈ l.entries, (strlen e.filename : Int) ≤ l.maxlen := by
  have hlen := insert_all_ok_length items l0 l hc h
  obtain ⟨l2, hl2, -, hentries, hmaxlen, -⟩ := insert_all_spec items l0 (by omega) (by omega)
    (by rw [hc, zero_add]; exact hlen)
  have hl : l2 = l := Except.ok.inj (hl2.symm.trans h)
  subst hl
  have hnil : l0.entries = [] := by simp [FILEINFO.entries, hc]
  rw [hnil, List.nil_append] at hentries
  rw [hm] at hmaxlen
  have hle : ∀ (ks : List Nat) (k : Nat), k ∈ ks → k ≤ ks.foldr max 0 := by
    intro ks
    induction ks with
    | nil => intro k hk; cases hk
    | cons x xs ih =>
      intro k hk
      simp only [List.foldr_cons]
      rcases List.mem_cons.mp hk with rfl | hk
      · exact le_max_left _ _
      · exact le_trans (ih k hk) (le_max_right _ _)
  constructor
  · rw [hmaxlen]; exact le_max_left _ _
  · intro e he
    rw [hentries] at he
    obtain ⟨p, hp, rfl⟩ := List.mem_map.mp he
    have hmem : strlen p.2 ∈ items.map (fun p => strlen p.2) := List.mem_map_of_mem _ hp
    have := hle _ _ hmem
    rw [hmaxlen]
    show (strlen p.2 : Int) ≤ _
    exact le_trans (by exact_mod_cast this) (le_max_right _ _)

/-! ## The column formatter: the claims -/

/-- C11: an empty class is invisible.  For every title, every
`max_line_width` and either setting of `opt_d`, `dump_list` on a list with
`count = 0` (or less) writes nothing to the report: no call of `printf` is
made, so there is no blank line, no title line and no newline.  The only call
that can write is the message of `debug_print` at line 310, which is written
when `opt_d` is set and is not report text; without `opt_d` nothing at all is
written. -/
theorem empty_class_invisible (opt_d : Bool) (max_line_width : Int) (l : FILEINFO)
    (title : CStr) (h : l.count ≤ 0) :
    report (dump_list opt_d max_line_width l title) = [] ∧
    report_calls (dump_list opt_d max_line_width l title) = [] ∧
    (∀ c ∈ dump_list opt_d max_line_width l title, c.isDebug = true) ∧
    (opt_d = false → dump_list opt_d max_line_width l title = []) := by
  rw [dump_list_of_empty opt_d max_line_width l title h]
  refine ⟨?_, report_calls_debug_print _ _, ?_, ?_⟩
  · unfold report
    rw [report_calls_debug_print]
    rfl
  · intro c hc
    cases opt_d
    · cases hc
    · simp only [debug_print, if_true, List.mem_singleton] at hc
      rw [hc]
      rfl
  · intro hd
    rw [hd]
    rfl

/-- The instance of C11 for the empty list, the title `Files`, width 118 and
`opt_d` set. -/
theorem empty_class_invisible_witness :
    empty_list.count ≤ 0 ∧
    report (dump_list true 118 empty_list title_files) = [] ∧
    report (dump_list false 118 empty_list title_files) = [] ∧
    dump_list false 118 empty_list title_files = [] :=
  have h : empty_list.count ≤ 0 := by decide
  ⟨h, (empty_class_invisible true 118 empty_list title_files h).1,
    (empty_class_invisible false 118 empty_list title_files h).1,
    (empty_class_invisible false 118 empty_list title_files h).2.2.2 rfl⟩

/-! ## Packing of the fields into lines -/

theorem chunks_nil (k : Nat) (hk : 1 ≤ k) : chunks k [] = [] := by
  unfold chunks
  have : ([] : List OUT).length + k - 1 = k - 1 := by simp
  rw [this, Nat.div_eq_of_lt (by omega)]
  rfl

theorem chunks_cons (k : Nat) (x : OUT) (xs : List OUT) :
    chunks (k + 1) (x :: xs) = (x :: xs.take k) :: chunks (k + 1) (xs.drop k) := by
  have hcount : ((x :: xs).length + (k + 1) - 1) / (k + 1)
      = ((xs.drop k).length + (k + 1) - 1) / (k + 1) + 1 := by
    simp only [List.length_cons, List.length_drop]
    have h1 : xs.length + 1 + (k + 1) - 1 = xs.length + (k + 1) := by omega
    rw [h1, Nat.add_div_right _ (Nat.succ_pos k)]
    congr 1
    by_cases h : k ≤ xs.length
    · have : xs.length - k + (k + 1) - 1 = xs.length := by omega
      rw [this]
    · have : xs.length - k + (k + 1) - 1 = k := by omega
      rw [this, Nat.div_eq_of_lt (by omega), Nat.div_eq_of_lt (by omega)]
  unfold chunks
  rw [hcount, List.range_succ_eq_map, List.map_cons, List.map_map]
  congr 1
  · simp
  · apply List.map_congr_left
    intro q _
    have : (q + 1) * (k + 1) = (q * (k + 1) + k) + 1 := by ring
    simp only [Function.comp, Nat.succ_eq_add_one, this, List.drop_succ_cons, List.drop_drop]
    rw [Nat.add_comm k (q * (k + 1))]

theorem lines_of_field_cons (w p : Int) (s : CStr) (rest : List OUT) (line : List OUT)
    (lines : List (List OUT)) (h : lines_of rest = line :: lines) :
    lines_of (OUT.field w p s :: rest) = (OUT.field w p s :: line) :: lines := by
  simp only [lines_of, h]

theorem lines_of_dump_loop (mlw w : Int) (k : Nat)
    (hcond : ∀ j : Nat, ((j : Int) * w + w > mlw ↔ k + 1 ≤ j)) (es : List FILEDATA) :
    ∀ j : Nat, j ≤ k + 1 →
      lines_of (dump_loop mlw w es ((j : Int) * w) ++ [OUT.newline])
        = ((es.map (fun e => OUT.field w w e.filename)).take (k + 1 - j))
          :: chunks (k + 1) ((es.map (fun e => OUT.field w w e.filename)).drop (k + 1 - j)) := by
  induction es with
  | nil =>
    intro j _
    simp only [dump_loop, List.nil_append, lines_of, List.map_nil, List.take_nil, List.drop_nil,
      chunks_nil (k + 1) (by omega)]
  | cons e rest ih =>
    intro j hj
    by_cases hfull : k + 1 ≤ j
    · have hjk : j = k + 1 := by omega
      subst hjk
      have hone := ih 1 (by omega)
      simp only [Nat.cast_one, one_mul, Nat.add_sub_cancel] at hone
      simp only [dump_loop, if_pos ((hcond (k + 1)).mpr hfull), zero_add, List.cons_append,
        Nat.sub_self, List.take_zero, List.drop_zero, List.map_cons, chunks_cons]
      rw [lines_of, lines_of_field_cons _ _ _ _ _ _ hone]
    · have hnot : ¬ ((j : Int) * w + w > mlw) := fun h => hfull ((hcond j).mp h)
      have hstep := ih (j + 1) (by omega)
      have hlw : ((j + 1 : Nat) : Int) * w = (j : Int) * w + w := by push_cast; ring
      rw [hlw] at hstep
      have hsub : k + 1 - j = (k + 1 - (j + 1)) + 1 := by omega
      simp only [dump_loop, if_neg hnot, List.cons_append, List.map_cons]
      rw [lines_of_field_cons _ _ _ _ _ _ hstep, hsub, List.take_succ_cons, List.drop_succ_cons]

theorem wrap_condition (mlw w : Int) (hw : 0 < w) (hfit : w ≤ mlw) :
    ∃ k : Nat, ((k : Int) + 1 = mlw / w) ∧
      ∀ j : Nat, ((j : Int) * w + w > mlw ↔ k + 1 ≤ j) := by
  have hq : 1 ≤ mlw / w := by
    rw [Int.le_ediv_iff_mul_le hw]
    omega
  refine ⟨(mlw / w - 1).toNat, by omega, ?_⟩
  intro j
  have hk : (((mlw / w - 1).toNat : Nat) : Int) = mlw / w - 1 := by omega
  have h1 : (j : Int) * w + w = ((j : Int) + 1) * w := by ring
  rw [h1, gt_iff_lt, ← Int.ediv_lt_iff_lt_mul hw]
  omega

theorem entry_lines_packed (opt_d : Bool) (mlw : Int) (l : FILEINFO) (title : CStr)
    (hcount : 0 < l.count) (hmax : 0 ≤ l.maxlen) (hfit : l.maxlen + 1 ≤ mlw) :
    ∃ k : Nat, ((k : Int) + 1 = mlw / (l.maxlen + 1)) ∧
      entry_lines (dump_list opt_d mlw l title)
        = chunks (k + 1)
            (l.entries.map (fun e => OUT.field (l.maxlen + 1) (l.maxlen + 1) e.filename)) := by
  obtain ⟨k, hk, hcond⟩ := wrap_condition mlw (l.maxlen + 1) (by omega) hfit
  refine ⟨k, hk, ?_⟩
  have hloop := lines_of_dump_loop mlw (l.maxlen + 1) k hcond l.entries 0 (by omega)
  simp only [Nat.cast_zero, zero_mul, Nat.sub_zero] at hloop
  unfold entry_lines
  rw [dump_list_calls opt_d mlw l title hcount]
  simp only [after_title]
  rw [hloop]
  have hne : l.entries ≠ [] := by
    have : l.count.toNat = (l.count.toNat - 1) + 1 := by omega
    unfold FILEINFO.entries
    rw [this, List.range_succ]
    simp
  generalize l.entries = es at hne
  cases es with
  | nil => exact absurd rfl hne
  | cons e rest => simp only [List.map_cons, chunks_cons, List.take_succ_cons, List.drop_succ_cons]

theorem chunks_flatten (k : Nat) :
    ∀ (n : Nat) (xs : List OUT), xs.length ≤ n → (chunks (k + 1) xs).flatten = xs := by
  intro n
  induction n with
  | zero =>
    intro xs hxs
    have : xs = [] := List.length_eq_zero.mp (by omega)
    rw [this, chunks_nil (k + 1) (by omega)]
    rfl
  | succ n ih =>
    intro xs hxs
    cases xs with
    | nil => rw [chunks_nil (k + 1) (by omega)]; rfl
    | cons x rest =>
      have hlen : (rest.drop k).length ≤ n := by
        rw [List.length_drop]
        simp only [List.length_cons] at hxs
        omega
      rw [chunks_cons, List.flatten_cons, ih _ hlen, List.cons_append, List.take_append_drop]

theorem chunks_line_length (k : Nat) (xs : List OUT) (q : Nat) (line : List OUT)
    (h : (chunks (k + 1) xs)[q]? = some line) :
    (q + 1 < (chunks (k + 1) xs).length → line.length = k + 1) ∧
    (q + 1 = (chunks (k + 1) xs).length → 1 ≤ line.length ∧ line.length ≤ k + 1) := by
  have hlen : (chunks (k + 1) xs).length = (xs.length + (k + 1) - 1) / (k + 1) := by
    simp [chunks]
  obtain ⟨hq, hline⟩ := List.getElem?_eq_some.mp h
  have hval : line = (xs.drop (q * (k + 1))).take (k + 1) := by
    rw [← hline]
    simp [chunks]
  have hl : line.length = min (k + 1) (xs.length - q * (k + 1)) := by
    rw [hval, List.length_take, List.length_drop]
  rw [hlen] at hq ⊢
  constructor
  · intro hlt
    have h2 : q + 2 ≤ (xs.length + (k + 1) - 1) / (k + 1) := by omega
    rw [Nat.le_div_iff_mul_le (show 0 < k + 1 by omega)] at h2
    have : (q + 2) * (k + 1) = q * (k + 1) + 2 * (k + 1) := by ring
    rw [hl]
    omega
  · intro _
    have h1 : q + 1 ≤ (xs.length + (k + 1) - 1) / (k + 1) := by omega
    rw [Nat.le_div_iff_mul_le (show 0 < k + 1 by omega)] at h1
    have : (q + 1) * (k + 1) = q * (k + 1) + (k + 1) := by ring
    rw [hl]
    omega

theorem line_length_fields (w : Int) (hw : 0 ≤ w) :
    ∀ line : List OUT, (∀ c ∈ line, ∃ s, c = OUT.field w w s) →
      (line_length line : Int) = line.length * w := by
  intro line
  induction line with
  | nil => intro _; simp [line_length]
  | cons c rest ih =>
    intro hall
    obtain ⟨s, rfl⟩ := hall c (List.mem_cons_self _ _)
    have hrest := ih (fun c hc => hall c (List.mem_cons_of_mem _ hc))
    have hlen := format_s_left_length w s hw
    unfold line_length at hrest ⊢
    simp only [List.flatMap_cons, List.length_append, List.length_cons, OUT.bytes]
    push_cast
    rw [hrest, hlen]
    ring

theorem chunks_mem_sub (k : Nat) (xs : List OUT) (line : List OUT)
    (h : line ∈ chunks (k + 1) xs) : line.length ≤ k + 1 ∧ ∀ c ∈ line, c ∈ xs := by
  unfold chunks at h
  obtain ⟨q, -, rfl⟩ := List.mem_map.mp h
  refine ⟨?_, fun c hc => List.mem_of_mem_drop (List.mem_of_mem_take hc)⟩
  rw [List.length_take]
  omega

/-- C12 as stated fails: the list holds the single file `abcdefghijkl` (built
by one insertion, so `maxlen = 12` and the field is 13 wide) and
`max_line_width` is 10.  `dump_list` writes a blank line, the title line
`Files [1]`, then a line break before the first field, as the wrap test of
line 322 holds for the first field too; so the first field does not start on
the line after the title line.  With `max_line_width` 13 it does. -/
theorem first_field_after_blank_line :
    insert_all [(stat_regular, name_twelve)] empty_list = Except.ok one_wide_file ∧
    dump_list false 10 one_wide_file title_files
      = [OUT.newline, OUT.title title_files 1, OUT.newline,
          OUT.field 13 13 name_twelve, OUT.newline] ∧
    report (dump_list false 10 one_wide_file title_files)
      = [10] ++ ascii "Files [1]" ++ [10] ++ [10] ++ ascii "abcdefghijkl " ++ [10] ∧
    report (dump_list false 13 one_wide_file title_files)
      = [10] ++ ascii "Files [1]" ++ [10] ++ ascii "abcdefghijkl " ++ [10] :=
  ⟨rfl, by decide, by decide, by decide⟩

/-- C13: fields are whole and of fixed width.  For every list built from the
empty list by insertions, before and after a sort in either mode, whatever
`max_line_width` is: the fields that `dump_list` prints are, in list order,
the `%-*.*s` fields of the entries with width and precision `maxlen + 1`; each
is the complete file name followed by `maxlen + 1 - strlen` spaces, at least
one, so each field is exactly `maxlen + 1` bytes and no name is cut. -/
theorem fields_whole_fixed_width (items : List (STAT × CStr)) (l0 l l1 : FILEINFO)
    (opt_t opt_d : Bool) (max_line_width : Int) (title : CStr)
    (hc : l0.count = 0) (hm : l0.maxlen = 0) (h : insert_all items l0 = Except.ok l)
    (hs : sort_list opt_t l l1) :
    ((dump_list opt_d max_line_width l1 title).filter OUT.isField
        = l1.entries.map (fun e => OUT.field (l1.maxlen + 1) (l1.maxlen + 1) e.filename) ∧
      ∀ e ∈ l1.entries,
        (OUT.field (l1.maxlen + 1) (l1.maxlen + 1) e.filename).bytes
            = e.filename.bytes
              ++ List.replicate (l1.maxlen + 1 - (strlen e.filename : Int)).toNat 32 ∧
          1 ≤ l1.maxlen + 1 - (strlen e.filename : Int) ∧
          (((OUT.field (l1.maxlen + 1) (l1.maxlen + 1) e.filename).bytes.length : Nat) : Int)
            = l1.maxlen + 1) ∧
    ((dump_list opt_d max_line_width l title).filter OUT.isField
        = l.entries.map (fun e => OUT.field (l.maxlen + 1) (l.maxlen + 1) e.filename) ∧
      ∀ e ∈ l.entries,
        (OUT.field (l.maxlen + 1) (l.maxlen + 1) e.filename).bytes
            = e.filename.bytes
              ++ List.replicate (l.maxlen + 1 - (strlen e.filename : Int)).toNat 32 ∧
          1 ≤ l.maxlen + 1 - (strlen e.filename : Int) ∧
          (((OUT.field (l.maxlen + 1) (l.maxlen + 1) e.filename).bytes.length : Nat) : Int)
            = l.maxlen + 1) := by
  obtain ⟨-, hbound⟩ := insert_all_names_bounded items l0 l hc hm h
  obtain ⟨hq, -, hmaxlen, -⟩ := sort_list_result opt_t l l1 hs
  refine ⟨⟨dump_list_fields opt_d max_line_width l1 title, ?_⟩,
    ⟨dump_list_fields opt_d max_line_width l title, ?_⟩⟩
  · intro e he
    rw [hmaxlen]
    exact format_s_left_whole l.maxlen e.filename (hbound e (hq.1.subset he))
  · intro e he
    exact format_s_left_whole l.maxlen e.filename (hbound e he)

/-- The instance of C13 for the files `abcdefghijkl`, `mnopqrstuvwx` and a
line width of 10. -/
theorem fields_whole_fixed_width_witness :
    (empty_list.count = 0 ∧ empty_list.maxlen = 0) ∧
    insert_all [(stat_regular, name_twelve), (stat_regular, name_twelve_more)] empty_list
      = Except.ok two_wide_files ∧
    sort_list false two_wide_files two_wide_files_sorted ∧
    (dump_list false 10 two_wide_files_sorted title_files).filter OUT.isField
      = two_wide_files_sorted.entries.map
          (fun e => OUT.field (two_wide_files_sorted.maxlen + 1)
            (two_wide_files_sorted.maxlen + 1) e.filename) :=
  have hsort : sort_list false two_wide_files two_wide_files_sorted :=
    ⟨by decide, by decide, _, ⟨List.Perm.refl _, by decide⟩, rfl⟩
  ⟨⟨rfl, rfl⟩, rfl, hsort,
    (fields_whole_fixed_width [(stat_regular, name_twelve), (stat_regular, name_twelve_more)]
      empty_list two_wide_files two_wide_files_sorted false false 10
      title_files rfl rfl rfl hsort).1.1⟩

/-- C14: the wrap bound.  For every non-empty list (with `maxlen` not
negative, as in every list built by insertions) and every `max_line_width`
with `maxlen + 1 ≤ max_line_width`, every line of entries that `dump_list`
writes is at most `max_line_width` bytes long. -/
theorem wrap_bound (opt_d : Bool) (max_line_width : Int) (l : FILEINFO) (title : CStr)
    (hcount : 0 < l.count) (hmax : 0 ≤ l.maxlen) (hfit : l.maxlen + 1 ≤ max_line_width) :
    ∀ line ∈ entry_lines (dump_list opt_d max_line_width l title),
      (line_length line : Int) ≤ max_line_width := by
  obtain ⟨k, hk, hlines⟩ := entry_lines_packed opt_d max_line_width l title hcount hmax hfit
  intro line hline
  rw [hlines] at hline
  obtain ⟨hlen, hsub⟩ := chunks_mem_sub k _ line hline
  have hfields : ∀ c ∈ line, ∃ s, c = OUT.field (l.maxlen + 1) (l.maxlen + 1) s := by
    intro c hc
    obtain ⟨e, -, rfl⟩ := List.mem_map.mp (hsub c hc)
    exact ⟨_, rfl⟩
  rw [line_length_fields (l.maxlen + 1) (by omega) line hfields]
  have hw : 0 < l.maxlen + 1 := by omega
  have hdiv : max_line_width / (l.maxlen + 1) * (l.maxlen + 1) ≤ max_line_width :=
    Int.ediv_mul_le _ (by omega)
  have hle : (line.length : Int) ≤ max_line_width / (l.maxlen + 1) := by
    rw [← hk]
    exact_mod_cast hlen
  calc (line.length : Int) * (l.maxlen + 1)
      ≤ max_line_width / (l.maxlen + 1) * (l.maxlen + 1) :=
        mul_le_mul_of_nonneg_right hle (le_of_lt hw)
    _ ≤ max_line_width := hdiv

/-- The instance of C14 for the files `abcdefghijkl`, `mnopqrstuvwx` and a
line width of 30. -/
theorem wrap_bound_witness :
    (0 < two_wide_files.count ∧ 0 ≤ two_wide_files.maxlen ∧ two_wide_files.maxlen + 1 ≤ 30) ∧
    entry_lines (dump_list false 30 two_wide_files title_files)
      = [[OUT.field 13 13 name_twelve, OUT.field 13 13 name_twelve_more]] ∧
    ∀ line ∈ entry_lines (dump_list false 30 two_wide_files title_files),
      (line_length line : Int) ≤ 30 :=
  ⟨⟨by decide, by decide, by decide⟩, by decide,
    wrap_bound false 30 two_wide_files title_files (by decide) (by decide) (by decide)⟩

/-- C15 as stated fails: the list holds the files `abcdefghijkl` and
`mnopqrstuvwx` (built by two insertions, field width 13) and `max_line_width`
is 10.  After the title line `dump_list` writes three lines, not two: an empty
line, then one line for each entry with that entry's whole field. -/
theorem too_wide_fields_extra_line :
    insert_all [(stat_regular, name_twelve), (stat_regular, name_twelve_more)] empty_list
      = Except.ok two_wide_files ∧
    entry_lines (dump_list false 10 two_wide_files title_files)
      = [[], [OUT.field 13 13 name_twelve], [OUT.field 13 13 name_twelve_more]] ∧
    (entry_lines (dump_list false 10 two_wide_files title_files)).length = 3 ∧
    two_wide_files.count = 2 ∧
    report (dump_list false 10 two_wide_files title_files)
      = [10] ++ ascii "Files [2]" ++ [10] ++ [10] ++ ascii "abcdefghijkl " ++ [10]
          ++ ascii "mnopqrstuvwx " ++ [10] :=
  ⟨rfl, by decide, by decide, rfl, by decide⟩

/-- C18: greedy packing.  For every non-empty list with field width
`w = maxlen + 1` (`maxlen` not negative) and every `max_line_width` with
`w ≤ max_line_width`, let `k = max_line_width / w`.  The lines of entries are
the fields in list order cut into consecutive pieces of `k`: every line but
the last holds exactly `k` fields, the last between 1 and `k`, there are
`ceil (count / k)` lines, and the loop puts a line break before a field
exactly when `line_width + w > max_line_width`. -/
theorem greedy_packing (opt_d : Bool) (max_line_width : Int) (l : FILEINFO) (title : CStr)
    (hcount : 0 < l.count) (hmax : 0 ≤ l.maxlen) (hfit : l.maxlen + 1 ≤ max_line_width) :
    ∃ k : Nat, (k : Int) = max_line_width / (l.maxlen + 1) ∧ 1 ≤ k ∧
      entry_lines (dump_list opt_d max_line_width l title)
        = chunks k
            (l.entries.map (fun e => OUT.field (l.maxlen + 1) (l.maxlen + 1) e.filename)) ∧
      (entry_lines (dump_list opt_d max_line_width l title)).flatten
        = l.entries.map (fun e => OUT.field (l.maxlen + 1) (l.maxlen + 1) e.filename) ∧
      (entry_lines (dump_list opt_d max_line_width l title)).length
        = (l.count.toNat + k - 1) / k ∧
      (∀ (q : Nat) (line : List OUT),
        (entry_lines (dump_list opt_d max_line_width l title))[q]? = some line →
          (q + 1 < (entry_lines (dump_list opt_d max_line_width l title)).length →
            line.length = k) ∧
          (q + 1 = (entry_lines (dump_list opt_d max_line_width l title)).length →
            1 ≤ line.length ∧ line.length ≤ k)) ∧
      (∀ (e : FILEDATA) (rest : List FILEDATA) (line_width : Int),
        (dump_loop max_line_width (l.maxlen + 1) (e :: rest) line_width).head?
            = some OUT.newline ↔
          line_width + (l.maxlen + 1) > max_line_width) := by
  obtain ⟨k, hk, hlines⟩ := entry_lines_packed opt_d max_line_width l title hcount hmax hfit
  refine ⟨k + 1, by push_cast; exact hk, by omega, hlines, ?_, ?_, ?_, ?_⟩
  · rw [hlines]
    exact chunks_flatten k _ _ (le_refl _)
  · rw [hlines]
    simp [chunks, FILEINFO.entries]
  · intro q line hq
    rw [hlines] at hq ⊢
    exact chunks_line_length k _ q line hq
  · intro e rest line_width
    simp only [dump_loop]
    split_ifs with hbreak
    · simp only [List.head?_cons, true_iff]
      exact hbreak
    · simp only [List.head?_cons, Option.some.injEq, reduceCtorEq, false_iff]
      exact hbreak

/-- The instance of C18 for the files `abcdefghijkl`, `mnopqrstuvwx` and a
line width of 30: two fields of width 13 on one line. -/
theorem greedy_packing_witness :
    (0 < two_wide_files.count ∧ 0 ≤ two_wide_files.maxlen ∧ two_wide_files.maxlen + 1 ≤ 30) ∧
    ∃ k : Nat, (k : Int) = 30 / (two_wide_files.maxlen + 1) ∧ 1 ≤ k ∧
      entry_lines (dump_list false 30 two_wide_files title_files)
        = chunks k (two_wide_files.entries.map
            (fun e => OUT.field (two_wide_files.maxlen + 1) (two_wide_files.maxlen + 1)
              e.filename)) ∧
      (entry_lines (dump_list false 30 two_wide_files title_files)).length
        = (two_wide_files.count.toNat + k - 1) / k := by
  refine ⟨⟨by decide, by decide, by decide⟩, ?_⟩
  obtain ⟨k, hk, hk1, hlines, -, hlen, -, -⟩ :=
    greedy_packing false 30 two_wide_files title_files (by decide) (by decide) (by decide)
  exact ⟨k, hk, hk1, hlines, hlen⟩

/-! ## The report driver -/

theorem main_options_fold (opts : List GETOPT) :
    ∀ o : OPTSTATE, 0 ≤ o.errflag → (o.errflag = 0 → o.out = []) →
      (∀ c ∈ o.out, ∃ b, c = OUT.text b) →
      0 ≤ (opts.foldl main_option o).errflag ∧
      ((opts.foldl main_option o).errflag = 0 ↔
        o.errflag = 0 ∧ ∀ e ∈ opts, e.isError = false) ∧
      ((opts.foldl main_option o).errflag = 0 → (opts.foldl main_option o).out = []) ∧
      (∀ c ∈ (opts.foldl main_option o).out, ∃ b, c = OUT.text b) ∧
      ((opts.foldl main_option o).opt_h = true ↔ o.opt_h = true ∨ GETOPT.h ∈ opts) := by
  induction opts with
  | nil =>
    intro o h0 hout htext
    exact ⟨h0, ⟨fun h => ⟨h, fun e he => by cases he⟩, fun h => h.1⟩, hout, htext,
      ⟨fun h => Or.inl h, fun h => h.elim id (fun h1 => by cases h1)⟩⟩
  | cons e rest ih =>
    intro o h0 hout htext
    simp only [List.foldl_cons]
    cases e with
    | h =>
      obtain ⟨h1, h2, h3, h4, h5⟩ := ih (main_option o GETOPT.h) h0 hout htext
      refine ⟨h1, ?_, h3, h4, ?_⟩
      · rw [h2]
        simp [main_option, GETOPT.isError]
      · rw [h5]
        simp [main_option]
    | d =>
      obtain ⟨h1, h2, h3, h4, h5⟩ := ih (main_option o GETOPT.d) h0 hout htext
      refine ⟨h1, ?_, h3, h4, ?_⟩
      · rw [h2]
        simp [main_option, GETOPT.isError]
      · rw [h5]
        simp [main_option]
    | t =>
      obtain ⟨h1, h2, h3, h4, h5⟩ := ih (main_option o GETOPT.t) h0 hout htext
      refine ⟨h1, ?_, h3, h4, ?_⟩
      · rw [h2]
        simp [main_option, GETOPT.isError]
      · rw [h5]
        simp [main_option]
    | w optarg =>
      obtain ⟨h1, h2, h3, h4, h5⟩ := ih (main_option o (GETOPT.w optarg)) h0 hout htext
      refine ⟨h1, ?_, h3, h4, ?_⟩
      · rw [h2]
        simp [main_option, GETOPT.isError]
      · rw [h5]
        simp [main_option]
    | unknown c =>
      have hpos : 0 ≤ (main_option o (GETOPT.unknown c)).errflag := by
        show 0 ≤ o.errflag + 1
        omega
      have hne : (main_option o (GETOPT.unknown c)).errflag ≠ 0 := by
        show o.errflag + 1 ≠ 0
        omega
      obtain ⟨h1, h2, h3, h4, h5⟩ := ih (main_option o (GETOPT.unknown c)) hpos
        (fun h => absurd h hne)
        (by
          intro x hx
          simp only [main_option, List.mem_append, List.mem_singleton] at hx
          rcases hx with hx | hx
          · exact htext x hx
          · exact ⟨_, hx⟩)
      refine ⟨h1, ?_, h3, h4, ?_⟩
      · rw [h2]
        constructor
        · intro h; exact absurd h.1 hne
        · intro h
          have := h.2 (GETOPT.unknown c) (List.mem_cons_self _ _)
          simp [GETOPT.isError] at this
      · rw [h5]
        simp [main_option]
    | missing c =>
      have hpos : 0 ≤ (main_option o (GETOPT.missing c)).errflag := by
        show 0 ≤ o.errflag + 1
        omega
      have hne : (main_option o (GETOPT.missing c)).errflag ≠ 0 := by
        show o.errflag + 1 ≠ 0
        omega
      obtain ⟨h1, h2, h3, h4, h5⟩ := ih (main_option o (GETOPT.missing c)) hpos
        (fun h => absurd h hne)
        (by
          intro x hx
          simp only [main_option, List.mem_append, List.mem_singleton] at hx
          rcases hx with hx | hx
          · exact htext x hx
          · exact ⟨_, hx⟩)
      refine ⟨h1, ?_, h3, h4, ?_⟩
      · rw [h2]
        constructor
        · intro h; exact absurd h.1 hne
        · intro h
          have := h.2 (GETOPT.missing c) (List.mem_cons_self _ _)
          simp [GETOPT.isError] at this
      · rw [h5]
        simp [main_option]

theorem main_options_spec (opts : List GETOPT) :
    ((main_options opts).errflag = 0 ↔ ∀ e ∈ opts, e.isError = false) ∧
    ((main_options opts).errflag = 0 → (main_options opts).out = []) ∧
    (∀ c ∈ (main_options opts).out, ∃ b, c = OUT.text b) ∧
    ((main_options opts).opt_h = true ↔ GETOPT.h ∈ opts) := by
  obtain ⟨-, h2, h3, h4, h5⟩ := main_options_fold opts OPTSTATE.initial (le_refl _)
    (fun _ => rfl) (fun c hc => by cases hc)
  refine ⟨?_, h3, h4, ?_⟩
  · rw [show (main_options opts).errflag = (opts.foldl main_option OPTSTATE.initial).errflag
      from rfl, h2]
    simp [OPTSTATE.initial]
  · rw [show (main_options opts).opt_h = (opts.foldl main_option OPTSTATE.initial).opt_h
      from rfl, h5]
    simp [OPTSTATE.initial]

theorem report_append (a b : List OUT) : report (a ++ b) = report a ++ report b := by
  unfold report
  rw [report_calls_append, List.flatMap_append]

theorem main_run_error (pgm : CStr) (opts : List GETOPT) (dir : Option (List DIRENT))
    (g0 : GLOBALS) (r : RUN) (herr : (main_options opts).errflag ≠ 0) :
    main_run pgm opts dir g0 r ↔
      r = { stdout := (main_options opts).out, stderr := usage pgm
            ending := Ending.fatal (Fatal.die 1) } := by
  unfold main_run
  simp only [if_pos herr]

theorem main_run_help (pgm : CStr) (opts : List GETOPT) (dir : Option (List DIRENT))
    (g0 : GLOBALS) (r : RUN) (herr : (main_options opts).errflag = 0)
    (hh : (main_options opts).opt_h = true) :
    main_run pgm opts dir g0 r ↔
      r = { stdout := (main_options opts).out, stderr := usage pgm
            ending := Ending.exit 0 } := by
  unfold main_run
  simp only [herr, ne_eq, not_true_eq_false, if_false, hh, if_true]

theorem main_run_listing (pgm : CStr) (opts : List GETOPT) (dir : Option (List DIRENT))
    (g0 : GLOBALS) (r : RUN) (herr : (main_options opts).errflag = 0)
    (hh : (main_options opts).opt_h = false) :
    main_run pgm opts dir g0 r ↔
      match list_directory dir (init_lists g0) with
      | Except.error e =>
        r = { stdout := (main_options opts).out, stderr := [], ending := Ending.fatal e }
      | Except.ok g1 =>
        ∃ g2, sort_lists (main_options opts).opt_t g1 g2 ∧
          r = { stdout := (main_options opts).out
                  ++ dump_lists (main_options opts).opt_d (main_options opts).max_line_width g2
                stderr := []
                ending := Ending.exit 0 } := by
  unfold main_run
  simp only [herr, ne_eq, not_true_eq_false, if_false, hh, Bool.false_eq_true]

/-! ## The report driver: the claims -/

/-- C16: the fixed report order.  In every run of `main` that reaches its end
(no `-h`, exit status 0), whatever the five lists hold and whichever
comparator sorted them, standard output is the block of `files_list` titled
`Files`, then of `dirs_list` titled `Directories`, then of `char_list` titled
`Character Devices`, then of `misc_list` titled `Misc`, then of `fifo_list`
titled `FIFO`, each written by `dump_list` on the sorted list, and the report
is the concatenation of the five block texts in that order. -/
theorem report_order (pgm : CStr) (opts : List GETOPT) (dir : Option (List DIRENT))
    (g0 : GLOBALS) (r : RUN) (hrun : main_run pgm opts dir g0 r)
    (hh : GETOPT.h ∉ opts) (hend : r.ending = Ending.exit 0) :
    ∃ g1 g2, list_directory dir (init_lists g0) = Except.ok g1 ∧
      sort_lists (main_options opts).opt_t g1 g2 ∧
      r.stdout
        = dump_list (main_options opts).opt_d (main_options opts).max_line_width
              g2.files_list title_files
          ++ dump_list (main_options opts).opt_d (main_options opts).max_line_width
              g2.dirs_list title_directories
          ++ dump_list (main_options opts).opt_d (main_options opts).max_line_width
              g2.char_list title_character_devices
          ++ dump_list (main_options opts).opt_d (main_options opts).max_line_width
              g2.misc_list title_misc
          ++ dump_list (main_options opts).opt_d (main_options opts).max_line_width
              g2.fifo_list title_fifo ∧
      report r.stdout
        = report (dump_list (main_options opts).opt_d (main_options opts).max_line_width
              g2.files_list title_files)
          ++ report (dump_list (main_options opts).opt_d (main_options opts).max_line_width
              g2.dirs_list title_directories)
          ++ report (dump_list (main_options opts).opt_d (main_options opts).max_line_width
              g2.char_list title_character_devices)
          ++ report (dump_list (main_options opts).opt_d (main_options opts).max_line_width
              g2.misc_list title_misc)
          ++ report (dump_list (main_options opts).opt_d (main_options opts).max_line_width
              g2.fifo_list title_fifo) := by
  obtain ⟨-, hout, -, hopt⟩ := main_options_spec opts
  by_cases herr : (main_options opts).errflag = 0
  · have hnh : (main_options opts).opt_h = false := by
      cases hv : (main_options opts).opt_h with
      | false => rfl
      | true => exact absurd (hopt.mp hv) hh
    rw [main_run_listing pgm opts dir g0 r herr hnh] at hrun
    cases hdir : list_directory dir (init_lists g0) with
    | error e =>
      rw [hdir] at hrun
      rw [hrun] at hend
      cases hend
    | ok g1 =>
      rw [hdir] at hrun
      obtain ⟨g2, hsort, hr⟩ := hrun
      refine ⟨g1, g2, rfl, hsort, ?_, ?_⟩
      · rw [hr, hout herr]
        rfl
      · rw [hr, hout herr]
        simp only [List.nil_append, dump_lists, report_append]
  · rw [main_run_error pgm opts dir g0 r herr] at hrun
    rw [hrun] at hend
    cases hend

theorem keep_order_sort (opt_t : Bool) (l : FILEINFO) (h0 : 0 ≤ l.count)
    (h1 : l.count ≤ MAX_FILES) (hasc : Ascending (comparator opt_t) l.entries) :
    sort_list opt_t l (keep_order l) :=
  ⟨h0, h1, l.entries, ⟨List.Perm.refl _, hasc⟩, rfl⟩

theorem sample_listing :
    list_directory (some sample_entries) (init_lists start_globals) = Except.ok sample_listed :=
  rfl

theorem sample_main_run : main_run name_lc2 [] (some sample_entries) start_globals sample_run := by
  rw [main_run_listing name_lc2 [] (some sample_entries) start_globals sample_run rfl rfl,
    sample_listing]
  refine ⟨sample_sorted, ⟨?_, ?_, ?_, ?_, ?_, rfl⟩, rfl⟩ <;>
    exact keep_order_sort _ _ (by decide) (by decide) (by decide)

/-- The instance of C16 for the run of `lc2` without options on a directory
with the regular file `a`, an entry whose stat fails and the directory
`A.txt`: the block `Files` comes before the block `Directories`, although the
directory is the later entry and the empty classes write nothing. -/
theorem report_order_witness :
    (GETOPT.h ∉ ([] : List GETOPT) ∧ sample_run.ending = Ending.exit 0) ∧
    main_run name_lc2 [] (some sample_entries) start_globals sample_run ∧
    report sample_run.stdout
      = [10] ++ ascii "Files [1]" ++ [10] ++ ascii "a " ++ [10]
        ++ [10] ++ ascii "Directories [1]" ++ [10] ++ ascii "A.txt " ++ [10] ∧
    ∃ g1 g2, list_directory (some sample_entries) (init_lists start_globals) = Except.ok g1 ∧
      sort_lists (main_options []).opt_t g1 g2 ∧
      report sample_run.stdout
        = report (dump_list (main_options []).opt_d (main_options []).max_line_width
              g2.files_list title_files)
          ++ report (dump_list (main_options []).opt_d (main_options []).max_line_width
              g2.dirs_list title_directories)
          ++ report (dump_list (main_options []).opt_d (main_options []).max_line_width
              g2.char_list title_character_devices)
          ++ report (dump_list (main_options []).opt_d (main_options []).max_line_width
              g2.misc_list title_misc)
          ++ report (dump_list (main_options []).opt_d (main_options []).max_line_width
              g2.fifo_list title_fifo) := by
  have hh : GETOPT.h ∉ ([] : List GETOPT) := List.not_mem_nil _
  refine ⟨⟨hh, rfl⟩, sample_main_run, by decide, ?_⟩
  obtain ⟨g1, g2, h1, h2, -, h4⟩ :=
    report_order name_lc2 [] (some sample_entries) start_globals sample_run sample_main_run
      hh rfl
  exact ⟨g1, g2, h1, h2, h4⟩

/-- C17 as stated fails: for the command line `lc2 -h -x` the option loop sees
`-h` and then the unknown option `x`; the test of `errflag` at line 385 comes
before the test of `opt_h`, so the program prints the usage text and ends
through `die` with exit status 1, not 0.  No run of this command line ends with
`exit(0)`. -/
theorem help_with_option_error_exits_1 :
    GETOPT.h ∈ [GETOPT.h, GETOPT.unknown 120] ∧
    main_run name_lc2 [GETOPT.h, GETOPT.unknown 120] none start_globals help_error_run ∧
    help_error_run.ending = Ending.fatal (Fatal.die 1) ∧
    help_error_run.stderr = usage name_lc2 ∧
    ∀ r, main_run name_lc2 [GETOPT.h, GETOPT.unknown 120] none start_globals r →
      r.ending ≠ Ending.exit 0 := by
  have herr : (main_options [GETOPT.h, GETOPT.unknown 120]).errflag ≠ 0 := by decide
  refine ⟨by decide, ?_, rfl, rfl, ?_⟩
  · rw [main_run_error _ _ _ _ _ herr]
    rfl
  · intro r hr
    rw [main_run_error _ _ _ _ _ herr] at hr
    rw [hr]
    exact fun h => Ending.noConfusion h

/-- C17, amended: for every command line whose options include `-h`, the
program prints the usage text and ends without enumerating or listing any
directory: the run is the same whatever the directory and the lists are, and
standard output holds no block, only the messages about option errors.  The
exit status is 0 when no option is unknown and no option lacks its value; with
such an option error the program ends through `die` with status 1. -/
theorem help_prints_usage (pgm : CStr) (opts : List GETOPT) (dir : Option (List DIRENT))
    (g0 : GLOBALS) (r : RUN) (hh : GETOPT.h ∈ opts) (hrun : main_run pgm opts dir g0 r) :
    r.stderr = usage pgm ∧
    r.stdout = (main_options opts).out ∧
    (∀ c ∈ r.stdout, ∃ b, c = OUT.text b) ∧
    ((∀ e ∈ opts, e.isError = false) → r.ending = Ending.exit 0 ∧ r.stdout = []) ∧
    ((∃ e ∈ opts, e.isError = true) → r.ending = Ending.fatal (Fatal.die 1)) ∧
    (∀ (dir2 : Option (List DIRENT)) (g2 : GLOBALS), main_run pgm opts dir2 g2 r) := by
  obtain ⟨herrflag, hout, htext, hopt⟩ := main_options_spec opts
  have hopt_h : (main_options opts).opt_h = true := hopt.mpr hh
  by_cases herr : (main_options opts).errflag = 0
  · rw [main_run_help pgm opts dir g0 r herr hopt_h] at hrun
    refine ⟨by rw [hrun], by rw [hrun], by rw [hrun]; exact htext, ?_, ?_, ?_⟩
    · intro _
      rw [hrun]
      exact ⟨rfl, hout herr⟩
    · rintro ⟨e, he, hbad⟩
      have := herrflag.mp herr e he
      rw [this] at hbad
      cases hbad
    · intro dir2 g2
      rw [main_run_help pgm opts dir2 g2 r herr hopt_h]
      exact hrun
  · rw [main_run_error pgm opts dir g0 r herr] at hrun
    refine ⟨by rw [hrun], by rw [hrun], by rw [hrun]; exact htext, ?_, ?_, ?_⟩
    · intro hgood
      exact absurd (herrflag.mpr hgood) herr
    · intro _
      rw [hrun]
    · intro dir2 g2
      rw [main_run_error pgm opts dir2 g2 r herr]
      exact hrun

/-- The instance of amended C17 for the command line `lc2 -h`. -/
theorem help_prints_usage_witness :
    (GETOPT.h ∈ [GETOPT.h] ∧ main_run name_lc2 [GETOPT.h] none start_globals help_run) ∧
    help_run.stderr = usage name_lc2 ∧
    help_run.ending = Ending.exit 0 ∧ help_run.stdout = [] ∧
    main_run name_lc2 [GETOPT.h] (some sample_entries) sample_listed help_run := by
  have hh : GETOPT.h ∈ [GETOPT.h] := List.mem_singleton_self _
  have hrun : main_run name_lc2 [GETOPT.h] none start_globals help_run := by
    rw [main_run_help name_lc2 [GETOPT.h] none start_globals help_run rfl rfl]
    rfl
  have h := help_prints_usage name_lc2 [GETOPT.h] none start_globals help_run hh hrun
  exact ⟨⟨hh, hrun⟩, h.1, (h.2.2.2.1 (by decide)).1, (h.2.2.2.1 (by decide)).2,
    h.2.2.2.2.2 _ _⟩

/-! ## The comparators as orderings -/

theorem strcasecmp_bytes_self (a : List Nat) : strcasecmp_bytes a a = 0 := by
  induction a with
  | nil => rfl
  | cons x xs ih => simp only [strcasecmp_bytes, ne_eq, not_true_eq_false, if_false, ih]

theorem strcasecmp_bytes_swap (a : List Nat) :
    ∀ b : List Nat, strcasecmp_bytes a b = - strcasecmp_bytes b a := by
  induction a with
  | nil =>
    intro b
    cases b with
    | nil => rfl
    | cons y ys => simp only [strcasecmp_bytes]; omega
  | cons x xs ih =>
    intro b
    cases b with
    | nil => simp only [strcasecmp_bytes]; omega
    | cons y ys =>
      simp only [strcasecmp_bytes]
      by_cases hxy : tolower x = tolower y
      · rw [if_neg (not_not.mpr hxy), if_neg (not_not.mpr hxy.symm)]
        exact ih ys
      · rw [if_pos hxy, if_pos (Ne.symm hxy)]
        omega

/-- C19: both comparators are lawful three-way orderings.  For all entries
`a`, `b`, `c` and for each of `compare_name` and `compare_time`: `cmp a a = 0`,
the sign of `cmp a b` is the opposite of the sign of `cmp b a`, and
`cmp a b ≤ 0` with `cmp b c ≤ 0` gives `cmp a c ≤ 0`; any two entries are
comparable.  So each is a total preorder, on the case-folded names and on the
modification times. -/
theorem comparators_lawful (a b c : FILEDATA) :
    (compare_name a a = 0 ∧
      Int.sign (compare_name a b) = - Int.sign (compare_name b a) ∧
      (compare_name a b ≤ 0 → compare_name b c ≤ 0 → compare_name a c ≤ 0) ∧
      (compare_name a b ≤ 0 ∨ compare_name b a ≤ 0)) ∧
    (compare_time a a = 0 ∧
      Int.sign (compare_time a b) = - Int.sign (compare_time b a) ∧
      (compare_time a b ≤ 0 → compare_time b c ≤ 0 → compare_time a c ≤ 0) ∧
      (compare_time a b ≤ 0 ∨ compare_time b a ≤ 0)) := by
  constructor
  · refine ⟨strcasecmp_bytes_self _, ?_, ?_, ?_⟩
    · unfold compare_name _strcasecmp
      rw [strcasecmp_bytes_swap, Int.sign_neg]
    · intro hab hbc
      rw [compare_name_le_iff] at hab hbc ⊢
      exact le_trans hab hbc
    · rw [compare_name_le_iff, compare_name_le_iff]
      exact le_total _ _
  · refine ⟨?_, ?_, ?_, ?_⟩
    · simp [compare_time]
    · unfold compare_time
      split_ifs <;> first | rfl | omega
    · intro hab hbc
      rw [compare_time_le_iff] at hab hbc ⊢
      exact le_trans hab hbc
    · rw [compare_time_le_iff, compare_time_le_iff]
      exact le_total _ _

/-- The instance of C19 for the entries `A`, `a` and `b.txt`: `A` and `a`
compare equal by name, and both come before `b.txt`. -/
theorem comparators_lawful_witness :
    (compare_name entry_upper_a entry_a ≤ 0 ∧ compare_name entry_a entry_b_txt ≤ 0) ∧
    compare_name entry_upper_a entry_b_txt ≤ 0 ∧
    Int.sign (compare_name entry_upper_a entry_a)
      = - Int.sign (compare_name entry_a entry_upper_a) :=
  have h := comparators_lawful entry_upper_a entry_a entry_b_txt
  have h1 : compare_name entry_upper_a entry_a ≤ 0 := by decide
  have h2 : compare_name entry_a entry_b_txt ≤ 0 := by decide
  ⟨⟨h1, h2⟩, h.1.2.2.1 h1 h2, h.1.2.1⟩

/-! ## Block framing and fields wider than the line -/

theorem dump_loop_ends_with_field (mlw w : Int) (es : List FILEDATA) :
    ∀ (lw : Int) (e : FILEDATA),
      ∃ init, dump_loop mlw w (es ++ [e]) lw = init ++ [OUT.field w w e.filename] := by
  induction es with
  | nil =>
    intro lw e
    simp only [List.nil_append, dump_loop]
    split_ifs
    · exact ⟨[OUT.newline], rfl⟩
    · exact ⟨[], rfl⟩
  | cons x xs ih =>
    intro lw e
    simp only [List.cons_append, dump_loop]
    split_ifs
    · obtain ⟨init, hinit⟩ := ih (0 + w) e
      exact ⟨OUT.newline :: OUT.field w w x.filename :: init,
        congrArg (fun t => OUT.newline :: OUT.field w w x.filename :: t) hinit⟩
    · obtain ⟨init, hinit⟩ := ih (lw + w) e
      exact ⟨OUT.field w w x.filename :: init,
        congrArg (fun t => OUT.field w w x.filename :: t) hinit⟩

theorem entries_first_last (l : FILEINFO) (m : Nat) (hm : l.count.toNat = m + 1) :
    (∃ rest, l.entries = l.files 0 :: rest) ∧ (∃ init, l.entries = init ++ [l.files m]) := by
  unfold FILEINFO.entries
  rw [hm]
  constructor
  · rw [List.range_succ_eq_map, List.map_cons]
    exact ⟨_, rfl⟩
  · rw [List.range_succ, List.map_append]
    exact ⟨_, rfl⟩

theorem lines_of_dump_loop_wide (mlw w : Int) (hw : 0 ≤ w) (hwide : mlw < w)
    (es : List FILEDATA) :
    ∀ lw : Int, 0 ≤ lw →
      lines_of (dump_loop mlw w es lw ++ [OUT.newline])
        = [] :: es.map (fun e => [OUT.field w w e.filename]) := by
  induction es with
  | nil =>
    intro lw _
    rfl
  | cons e rest ih =>
    intro lw hlw
    have hbreak : lw + w > mlw := by omega
    have hrest := ih (0 + w) (by omega)
    simp only [dump_loop, if_pos hbreak, List.cons_append, List.map_cons]
    rw [lines_of, lines_of_field_cons _ _ _ _ _ _ hrest]

/-- C12, amended: block framing.  For every list with `count ≥ 1`, the text
that `dump_list` writes is a blank line, then the line of the title, a space
and the count in decimal between square brackets, then the fields of the
entries in list order, and the block ends with exactly one newline after the
field of the last entry.  The field of the first entry starts directly on the
line after the title line when `maxlen + 1 ≤ max_line_width`; when
`maxlen + 1 > max_line_width` one line break comes between the title line and
the first field. -/
theorem block_framing (opt_d : Bool) (max_line_width : Int) (l : FILEINFO) (title : CStr)
    (hcount : 0 < l.count) :
    ∃ rest init : List OUT,
      report_calls (dump_list opt_d max_line_width l title)
        = OUT.newline :: OUT.title title l.count
            :: (dump_loop max_line_width (l.maxlen + 1) l.entries 0 ++ [OUT.newline]) ∧
      report (dump_list opt_d max_line_width l title)
        = [10] ++ (title.bytes ++ ascii " [" ++ format_d l.count ++ ascii "]" ++ [10])
            ++ (dump_loop max_line_width (l.maxlen + 1) l.entries 0).flatMap OUT.bytes
            ++ [10] ∧
      format_d l.count = (Nat.toDigits 10 l.count.toNat).map Char.toNat ∧
      (dump_list opt_d max_line_width l title).filter OUT.isField
        = l.entries.map (fun e => OUT.field (l.maxlen + 1) (l.maxlen + 1) e.filename) ∧
      (l.maxlen + 1 ≤ max_line_width →
        dump_loop max_line_width (l.maxlen + 1) l.entries 0
          = OUT.field (l.maxlen + 1) (l.maxlen + 1) (l.files 0).filename :: rest) ∧
      (max_line_width < l.maxlen + 1 →
        dump_loop max_line_width (l.maxlen + 1) l.entries 0
          = OUT.newline
              :: OUT.field (l.maxlen + 1) (l.maxlen + 1) (l.files 0).filename :: rest) ∧
      dump_loop max_line_width (l.maxlen + 1) l.entries 0
        = init ++ [OUT.field (l.maxlen + 1) (l.maxlen + 1)
            (l.files (l.count.toNat - 1)).filename] := by
  obtain ⟨m, hm⟩ : ∃ m, l.count.toNat = m + 1 := ⟨l.count.toNat - 1, by omega⟩
  obtain ⟨⟨tl, hfirst⟩, ⟨pre, hlast⟩⟩ := entries_first_last l m hm
  obtain ⟨init, hinit⟩ := dump_loop_ends_with_field max_line_width (l.maxlen + 1) pre 0
    (l.files m)
  have hm1 : l.count.toNat - 1 = m := by omega
  have hcalls := dump_list_calls opt_d max_line_width l title hcount
  refine ⟨dump_loop max_line_width (l.maxlen + 1) tl (0 + (l.maxlen + 1)), init, hcalls,
    ?_, ?_, dump_list_fields opt_d max_line_width l title, ?_, ?_, ?_⟩
  · unfold report
    rw [hcalls]
    simp only [List.flatMap_cons, List.flatMap_append, List.flatMap_nil, OUT.bytes,
      List.append_nil, List.append_assoc]
  · have hpos : ¬ (l.count < 0) := by omega
    simp only [format_d, if_neg hpos]
  · intro hfit
    have hno : ¬ (0 + (l.maxlen + 1) > max_line_width) := by omega
    rw [hfirst]
    simp only [dump_loop, if_neg hno]
  · intro hwide
    have hyes : 0 + (l.maxlen + 1) > max_line_width := by omega
    rw [hfirst]
    simp only [dump_loop, if_pos hyes]
  · rw [hm1, hlast]
    exact hinit

/-- The instance of amended C12 for the single file `abcdefghijkl`, once with
line width 13, where the field follows the title line, and once with line
width 10, where a line break comes first. -/
theorem block_framing_witness :
    0 < one_wide_file.count ∧
    (∃ rest : List OUT,
      dump_loop 13 (one_wide_file.maxlen + 1) one_wide_file.entries 0
        = OUT.field (one_wide_file.maxlen + 1) (one_wide_file.maxlen + 1)
            (one_wide_file.files 0).filename :: rest) ∧
    (∃ rest : List OUT,
      dump_loop 10 (one_wide_file.maxlen + 1) one_wide_file.entries 0
        = OUT.newline
            :: OUT.field (one_wide_file.maxlen + 1) (one_wide_file.maxlen + 1)
                (one_wide_file.files 0).filename :: rest) ∧
    report_calls (dump_list true 13 one_wide_file title_files)
      = OUT.newline :: OUT.title title_files one_wide_file.count
          :: (dump_loop 13 (one_wide_file.maxlen + 1) one_wide_file.entries 0
                ++ [OUT.newline]) := by
  have hcount : 0 < one_wide_file.count := by decide
  obtain ⟨rest, -, hcalls, -, -, -, hfit, -, -⟩ :=
    block_framing true 13 one_wide_file title_files hcount
  obtain ⟨rest2, -, -, -, -, -, -, hwide, -⟩ :=
    block_framing true 10 one_wide_file title_files hcount
  exact ⟨hcount, ⟨rest, hfit (by decide)⟩, ⟨rest2, hwide (by decide)⟩, hcalls⟩

/-- C15, amended: fields wider than the line.  For every non-empty list built
by insertions with field width `maxlen + 1 > max_line_width`, the text after
the title line consists of one empty line followed by exactly `count` lines,
one per entry in list order, each line holding the whole, uncut field of that
single entry (the name and `maxlen + 1 - strlen` spaces) and nothing else. -/
theorem too_wide_fields_one_per_line (items : List (STAT × CStr)) (l0 l : FILEINFO)
    (opt_d : Bool) (max_line_width : Int) (title : CStr)
    (hc : l0.count = 0) (hm : l0.maxlen = 0) (h : insert_all items l0 = Except.ok l)
    (hcount : 0 < l.count) (hwide : max_line_width < l.maxlen + 1) :
    entry_lines (dump_list opt_d max_line_width l title)
      = [] :: l.entries.map
          (fun e => [OUT.field (l.maxlen + 1) (l.maxlen + 1) e.filename]) ∧
    ((entry_lines (dump_list opt_d max_line_width l title)).length : Int) = l.count + 1 ∧
    ∀ e ∈ l.entries,
      (OUT.field (l.maxlen + 1) (l.maxlen + 1) e.filename).bytes
          = e.filename.bytes
            ++ List.replicate (l.maxlen + 1 - (strlen e.filename : Int)).toNat 32 ∧
        1 ≤ l.maxlen + 1 - (strlen e.filename : Int) := by
  obtain ⟨hmax, hbound⟩ := insert_all_names_bounded items l0 l hc hm h
  have hlines : entry_lines (dump_list opt_d max_line_width l title)
      = [] :: l.entries.map
          (fun e => [OUT.field (l.maxlen + 1) (l.maxlen + 1) e.filename]) := by
    unfold entry_lines
    rw [dump_list_calls opt_d max_line_width l title hcount]
    simp only [after_title]
    exact lines_of_dump_loop_wide max_line_width (l.maxlen + 1) (by omega) hwide l.entries 0
      (le_refl _)
  refine ⟨hlines, ?_, ?_⟩
  · rw [hlines]
    simp only [List.length_cons, List.length_map, FILEINFO.entries, List.length_range]
    push_cast
    omega
  · intro e he
    have hw := format_s_left_whole l.maxlen e.filename (hbound e he)
    exact ⟨hw.1, hw.2.1⟩

/-- The instance of amended C15 for the single file `abcdefghijkl` and a line
width of 10: an empty line, then the line of the one field. -/
theorem too_wide_fields_one_per_line_witness :
    (empty_list.count = 0 ∧ empty_list.maxlen = 0 ∧
      insert_all [(stat_regular, name_twelve)] empty_list = Except.ok one_wide_file ∧
      0 < one_wide_file.count ∧ (10 : Int) < one_wide_file.maxlen + 1) ∧
    entry_lines (dump_list false 10 one_wide_file title_files)
      = [] :: one_wide_file.entries.map
          (fun e => [OUT.field (one_wide_file.maxlen + 1) (one_wide_file.maxlen + 1)
            e.filename]) ∧
    ((entry_lines (dump_list false 10 one_wide_file title_files)).length : Int)
      = one_wide_file.count + 1 :=
  have h := too_wide_fields_one_per_line [(stat_regular, name_twelve)] empty_list
    one_wide_file false 10 title_files rfl rfl rfl (by decide) (by decide)
  ⟨⟨rfl, rfl, rfl, by decide, by decide⟩, h.1, h.2.1⟩

end Lc2
